import Mathlib

/-!
Shallow embedding of the social-media backend's data-access layer
(`src/database.js`), its SQLite schema (migrations 001 and 005), and the
schema-migration runner, together with proofs settling the frozen claims.

Tables are modelled as lists of row records inside a `DB` state; every SQL
query of the repository is translated into a pure Lean function over `DB`,
following the SQL text statement by statement (joins become `filterMap`
lookups, `GROUP_CONCAT(DISTINCT ..)` followed by the JavaScript `split(',')`
becomes an explicit comma-join/comma-split pair, `ORDER BY .. DESC LIMIT n`
becomes an insertion sort followed by `take`). `ORDER BY RANDOM()` is
modelled by an arbitrary reordering function constrained to be a
permutation. Identifier strings are opaque; timestamps are ISO-8601 strings,
whose lexicographic string order coincides with chronological order.
-/

namespace SMT

/-- Row of the `users` table (migrations 001 and 003): id, email, username,
password, plus profile columns. -/
structure User where
  id : String
  email : String
  username : String
  password : String
  name : String
  bio : String
  link : String
  created_at : String
deriving Repr, DecidableEq

/-- Row of the `posts` table (migrations 001 and 002). -/
structure Post where
  id : String
  user_id : String
  content : String
  image_url : Option String
  created_at : String
  updated_at : String
deriving Repr, DecidableEq

/-- Row of the `likes` table: primary key `(post_id, user_id)`. -/
structure Like where
  post_id : String
  user_id : String
deriving Repr, DecidableEq

/-- Row of the `comments` table. -/
structure Comment where
  id : String
  post_id : String
  user_id : String
  content : String
  created_at : String
deriving Repr, DecidableEq

/-- Row of the `follows` table: primary key `(follower_id, following_id)`. -/
structure Follow where
  follower_id : String
  following_id : String
deriving Repr, DecidableEq

/-- Row of the `conversations` table (migration 005). -/
structure Conversation where
  id : String
  type : String
  name : Option String
  created_at : String
  last_message_at : Option String
deriving Repr, DecidableEq

/-- Row of the `conversation_participants` table (migration 005): primary key
`(conversation_id, user_id)`; `joined_at` is never read by any repository
query and is omitted. -/
structure Participant where
  conversation_id : String
  user_id : String
deriving Repr, DecidableEq

/-- Row of the `messages` table (migration 005). -/
structure Message where
  id : String
  conversation_id : String
  sender_id : String
  content : String
  created_at : String
deriving Repr, DecidableEq

/-- The relational store: one list of rows per table, in insertion order. -/
structure DB where
  users : List User
  posts : List Post
  likes : List Like
  comments : List Comment
  follows : List Follow
  conversations : List Conversation
  participants : List Participant
  messages : List Message
deriving Repr, DecidableEq

/-! ### Generic helpers: comma join/split, deduplication, sorting -/

/-- Split a character list at every occurrence of `sep` (semantics of the
JavaScript `String.prototype.split` with a single-character separator, which
is what `row.likes.split(',')` etc. perform on the `GROUP_CONCAT` output). -/
def splitOnChar (sep : Char) : List Char → List (List Char)
  | [] => [[]]
  | c :: rest =>
    if c = sep then [] :: splitOnChar sep rest
    else
      match splitOnChar sep rest with
      | [] => [[c]]
      | h :: t => (c :: h) :: t

/-- Interleave `sep` between the given character lists (semantics of SQLite
`GROUP_CONCAT` with the default `,` separator, over the listed values). -/
def joinChar (sep : Char) : List (List Char) → List Char
  | [] => []
  | [x] => x
  | x :: rest => x ++ sep :: joinChar sep rest

/-- The round trip the JavaScript layer performs on a `GROUP_CONCAT` column:
the store comma-joins the (distinct) values into one string; the JS callback
tests the string for truthiness (`row.likes ? ... : []`, the empty string
being falsy) and splits it back on `','`. -/
def concatSplit (ids : List String) : List String :=
  let joined := joinChar ',' (ids.map String.toList)
  if joined = [] then [] else (splitOnChar ',' joined).map (fun l => String.mk l)

/-- An identifier that survives the `GROUP_CONCAT`-then-`split` round trip:
nonempty and comma-free. Every identifier this system generates is a
`crypto.randomUUID()` value, which satisfies this. -/
def goodId (s : String) : Prop := s ≠ "" ∧ ',' ∉ s.toList

instance (s : String) : Decidable (goodId s) := by
  unfold goodId; infer_instance

/-- Strict lexicographic comparison of character lists by code point —
SQLite's default BINARY collation, under which ISO-8601 timestamps compare
chronologically. -/
def chLt : List Char → List Char → Bool
  | [], [] => false
  | [], _ :: _ => true
  | _ :: _, [] => false
  | a :: as, b :: bs => if a = b then chLt as bs else decide (a.toNat < b.toNat)

/-- Reflexive lexicographic comparison of character lists by code point. -/
def chLe : List Char → List Char → Bool
  | [], _ => true
  | _ :: _, [] => false
  | a :: as, b :: bs => if a = b then chLe as bs else decide (a.toNat < b.toNat)

/-- SQLite string comparison `s < t` (BINARY collation). -/
def strLt (s t : String) : Bool := chLt s.toList t.toList

/-- SQLite string comparison `s <= t` (BINARY collation). -/
def strLe (s t : String) : Bool := chLe s.toList t.toList

/-- Sort a list in descending order of a string key (the effect of
`ORDER BY <key> DESC`; ties are left in a deterministic order, matching the
fact that SQLite leaves tie order unspecified). -/
def sortByKeyDesc {α : Type} (key : α → String) (l : List α) : List α :=
  l.insertionSort (fun a b => strLe (key b) (key a) = true)

/-- Sort a list in ascending order of a string key (`ORDER BY <key> ASC`). -/
def sortByKeyAsc {α : Type} (key : α → String) (l : List α) : List α :=
  l.insertionSort (fun a b => strLe (key a) (key b) = true)

/-! ### User reads and writes (`src/database.js`) -/

/-- First `users` row with the given id (`SELECT .. FROM users WHERE id = ?`
via `db.get`), used as the join partner for `JOIN users u ON .. = u.id`. -/
def userById (db : DB) (uid : String) : Option User :=
  db.users.find? (fun u => u.id == uid)

/-- The `getUserByEmail` repository read: `SELECT * FROM users WHERE email = ?`
through `db.get`, so the first matching full row — password column
included — or nothing. -/
def getUserByEmail (db : DB) (email : String) : Option User :=
  db.users.find? (fun u => u.email == email)

/-- The `getUserByUsername` repository read: `SELECT * FROM users WHERE
username = ?` through `db.get`; the full row, password included. -/
def getUserByUsername (db : DB) (username : String) : Option User :=
  db.users.find? (fun u => u.username == username)

/-- Projection of a `users` row onto the columns
`id, email, username, name, bio, link, created_at` (no password). -/
structure PublicUser where
  id : String
  email : String
  username : String
  name : String
  bio : String
  link : String
  created_at : String
deriving Repr, DecidableEq

/-- Column projection performed by `getUserById`'s explicit column list. -/
def User.toPublic (u : User) : PublicUser :=
  ⟨u.id, u.email, u.username, u.name, u.bio, u.link, u.created_at⟩

/-- The `getUserById` repository read: `SELECT id, email, username, name, bio,
link, created_at FROM users WHERE id = ?`. -/
def getUserById (db : DB) (uid : String) : Option PublicUser :=
  (db.users.find? (fun u => u.id == uid)).map User.toPublic

/-- The `createUser` repository write: `INSERT INTO users (id, email,
username, password) VALUES (?,?,?,?)`; the remaining columns take their
schema defaults (empty strings per migrations 001/003). -/
def createUser (db : DB) (id email username password now : String) : DB :=
  { db with users := db.users ++ [⟨id, email, username, password, "", "", "", now⟩] }

/-! ### SQLite `LIKE` and `searchUsers` -/

/-- Does `f` accept some suffix of the input (including the input itself and
the empty suffix)? Used to give `%` its "match any run of characters"
semantics. -/
def anySuffix (f : List Char → Bool) : List Char → Bool
  | [] => f []
  | c :: t => f (c :: t) || anySuffix f t

/-- SQLite `LIKE` pattern matching: `%` matches any (possibly empty) sequence
— the rest of the pattern may resume at any suffix — `_` matches exactly one
character, and ordinary characters compare case-insensitively in the ASCII
range (SQLite folds only `A`–`Z`, which is exactly what `Char.toLower`
folds). -/
def likeMatch : List Char → List Char → Bool
  | [], s => s.isEmpty
  | p :: ps, s =>
    if p = '%' then anySuffix (likeMatch ps) s
    else
      match s with
      | [] => false
      | c :: t => (if p = '_' then true else p.toLower == c.toLower) && likeMatch ps t

/-- The pattern test `u.username LIKE '%' || query || '%'` used by
`searchUsers` (the `?` placeholder is bound to `` `%${query}%` ``). -/
def likeContains (query s : String) : Bool :=
  likeMatch ('%' :: (query.toList ++ ['%'])) s.toList

/-- Containment of `needle` as a contiguous run inside `hay`. -/
def listContains (needle : List Char) : List Char → Bool
  | [] => needle.isEmpty
  | c :: t => needle.isPrefixOf (c :: t) || listContains needle t

/-- Case-insensitive substring containment — the spec's reading of the
pattern match ("case-insensitive substring match on username"). -/
def ciSubstr (q s : String) : Bool :=
  listContains (q.toList.map Char.toLower) (s.toList.map Char.toLower)

/-- A query string that contains no `LIKE` metacharacter. -/
def noWildcards (q : String) : Prop := '%' ∉ q.toList ∧ '_' ∉ q.toList

instance (q : String) : Decidable (noWildcards q) := by
  unfold noWildcards; infer_instance

/-- Distinct follower ids of user `uid`: the values aggregated by
`GROUP_CONCAT(DISTINCT f1.follower_id)` over `follows f1 ON u.id =
f1.following_id` (SQLite leaves the aggregation order unspecified; only the
deduplicated value set is meaningful). -/
def followerIdsOf (db : DB) (uid : String) : List String :=
  ((db.follows.filter (fun f => f.following_id == uid)).map Follow.follower_id).dedup

/-- Distinct followee ids of user `uid`: the values aggregated by
`GROUP_CONCAT(DISTINCT f2.following_id)` over `follows f2 ON u.id =
f2.follower_id`. -/
def followingIdsOf (db : DB) (uid : String) : List String :=
  ((db.follows.filter (fun f => f.follower_id == uid)).map Follow.following_id).dedup

/-- Result row shape of `searchUsers` after the JavaScript post-processing. -/
structure SearchUser where
  id : String
  username : String
  email : String
  followers : List String
  following : List String
deriving Repr, DecidableEq

/-- The `searchUsers(query, currentUserId)` read: rows of `users` whose
username matches `LIKE '%query%'` and whose id differs from the caller's,
grouped per user (`GROUP BY u.id`), capped at 20 (`LIMIT 20`), each annotated
with the comma-joined-then-resplit distinct follower/followee id lists. -/
def searchUsers (db : DB) (query currentUserId : String) : List SearchUser :=
  ((db.users.filter
      (fun u => likeContains query u.username && u.id != currentUserId)).take 20).map
    (fun u =>
      ⟨u.id, u.username, u.email,
        concatSplit (followerIdsOf db u.id),
        concatSplit (followingIdsOf db u.id)⟩)

/-! ### Posts, likes, comments, follows, feed and explore -/

/-- Ids of the users that `uid` follows: the subquery
`SELECT following_id FROM follows WHERE follower_id = ?`. -/
def followeeIds (db : DB) (uid : String) : List String :=
  (db.follows.filter (fun f => f.follower_id == uid)).map Follow.following_id

/-- The `followUser` write: `INSERT OR IGNORE INTO follows` under the
`(follower_id, following_id)` primary key — a no-op when the edge exists. -/
def followUser (db : DB) (followerId followingId : String) : DB :=
  if db.follows.any (fun f => f.follower_id == followerId && f.following_id == followingId)
  then db
  else { db with follows := db.follows ++ [⟨followerId, followingId⟩] }

/-- The `createPost` write: `INSERT INTO posts (id, user_id, content,
image_url, created_at, updated_at)` with both timestamps set to the same
server-side `new Date().toISOString()` value. -/
def createPost (db : DB) (id uid content : String) (imageUrl : Option String)
    (now : String) : DB :=
  { db with posts := db.posts ++ [⟨id, uid, content, imageUrl, now, now⟩] }

/-- View model of one comment row joined with its author's username
(`getPostComments` row mapping). -/
structure CommentView where
  id : String
  postId : String
  userId : String
  username : String
  content : String
  createdAt : String
deriving Repr, DecidableEq

/-- The `getPostComments` read: comments of the post inner-joined with
`users` for the commenter's username, `ORDER BY c.created_at ASC`. -/
def getPostComments (db : DB) (postId : String) : List CommentView :=
  (sortByKeyAsc (fun cu : Comment × User => cu.1.created_at)
      ((db.comments.filter (fun c => c.post_id == postId)).filterMap
        (fun c => (userById db c.user_id).map (fun u => (c, u))))).map
    (fun cu => ⟨cu.1.id, cu.1.post_id, cu.1.user_id, cu.2.username, cu.1.content,
      cu.1.created_at⟩)

/-- Distinct liker ids of a post: values of `GROUP_CONCAT(DISTINCT l.user_id)`
over `LEFT JOIN likes l ON p.id = l.post_id`. -/
def likerIdsOf (db : DB) (postId : String) : List String :=
  ((db.likes.filter (fun l => l.post_id == postId)).map Like.user_id).dedup

/-- Enriched post view model shared by the feed, explore, profile and
bookmark queries. -/
structure PostView where
  id : String
  userId : String
  username : String
  content : String
  imageUrl : Option String
  likes : List String
  comments : List CommentView
  createdAt : String
  updatedAt : String
deriving Repr, DecidableEq

/-- Row mapping shared by `getFeedPosts` / `getExplorePosts`: one post joined
with its author row, the comma-joined-then-resplit distinct liker ids, and
the full comment list fetched by the secondary `getPostComments` query. -/
def enrichPost (db : DB) (pu : Post × User) : PostView :=
  ⟨pu.1.id, pu.1.user_id, pu.2.username, pu.1.content, pu.1.image_url,
    concatSplit (likerIdsOf db pu.1.id), getPostComments db pu.1.id,
    pu.1.created_at, pu.1.updated_at⟩

/-- Inner join `JOIN users u ON p.user_id = u.id`: pair each post with its
author row, dropping posts whose author id has no `users` row. -/
def joinAuthor (db : DB) (l : List Post) : List (Post × User) :=
  l.filterMap (fun p => (userById db p.user_id).map (fun u => (p, u)))

/-- Posts admitted by the feed's `WHERE` clause: the author is someone the
caller follows (`p.user_id IN (SELECT following_id ..)`) or the caller
themselves (`OR p.user_id = ?`). -/
def feedBase (db : DB) (uid : String) : List Post :=
  db.posts.filter (fun p => (followeeIds db uid).contains p.user_id || p.user_id == uid)

/-- The `getFeedPosts(userId)` read: the feed base joined with authors,
`ORDER BY p.created_at DESC`, `LIMIT 50`, then enriched per row. -/
def getFeedPosts (db : DB) (uid : String) : List PostView :=
  ((sortByKeyDesc (fun pu : Post × User => pu.1.created_at)
      (joinAuthor db (feedBase db uid))).take 50).map (enrichPost db)

/-- Posts admitted by the explore `WHERE` clause: not the caller's own
(`p.user_id != ?`) and not by anyone the caller follows
(`p.user_id NOT IN (SELECT following_id ..)`). -/
def exploreBase (db : DB) (uid : String) : List Post :=
  db.posts.filter
    (fun p => p.user_id != uid && !(followeeIds db uid).contains p.user_id)

/-- The `getExplorePosts(userId)` read: the explore base joined with authors,
reordered by `ORDER BY RANDOM()` — modelled by the reordering function
`shuffle`, constrained to a permutation in the theorems — then `LIMIT 50`
and enriched per row. -/
def getExplorePosts (db : DB) (uid : String)
    (shuffle : List (Post × User) → List (Post × User)) : List PostView :=
  ((shuffle (joinAuthor db (exploreBase db uid))).take 50).map (enrichPost db)

/-! ### `deletePost` and store-level cascade rules -/

/-- Delete statements the content repository can issue against the post
subtree. The repository's `deletePost` issues only the first; the other two
exist to express that it never issues them. -/
inductive DelStmt where
  | delPost (postId : String)
  | delLikesOf (postId : String)
  | delCommentsOf (postId : String)
deriving Repr, DecidableEq

/-- Store semantics of one delete statement. Per the `001_initial_schema`
declarations, `likes` and `comments` carry `FOREIGN KEY (post_id) REFERENCES
posts(id) ON DELETE CASCADE`, so the store removes the child rows of a
deleted post itself. -/
def execDelStmt (db : DB) : DelStmt → DB
  | .delPost pid =>
    { db with
      posts := db.posts.filter (fun p => p.id != pid),
      likes := db.likes.filter (fun l => l.post_id != pid),
      comments := db.comments.filter (fun c => c.post_id != pid) }
  | .delLikesOf pid => { db with likes := db.likes.filter (fun l => l.post_id != pid) }
  | .delCommentsOf pid =>
    { db with comments := db.comments.filter (fun c => c.post_id != pid) }

/-- The statement list `deletePost` issues: exactly one statement,
`DELETE FROM posts WHERE id = ?`. -/
def deletePostStmts (postId : String) : List DelStmt := [.delPost postId]

/-- The `deletePost` repository write: run its statement list. -/
def deletePost (db : DB) (postId : String) : DB :=
  (deletePostStmts postId).foldl execDelStmt db

/-! ### Messaging repository -/

/-- The `createConversation` write: `INSERT INTO conversations (id, type,
name, created_at)`; `last_message_at` starts NULL. -/
def createConversation (db : DB) (id type : String) (name : Option String)
    (now : String) : DB :=
  { db with conversations := db.conversations ++ [⟨id, type, name, now, none⟩] }

/-- The `addParticipant` write: `INSERT OR IGNORE INTO
conversation_participants (conversation_id, user_id)` under the
`(conversation_id, user_id)` primary key. -/
def addParticipant (db : DB) (conversationId userId : String) : DB :=
  if db.participants.any
      (fun p => p.conversation_id == conversationId && p.user_id == userId)
  then db
  else { db with participants := db.participants ++ [⟨conversationId, userId⟩] }

/-- Membership test `cp.user_id = ?` joined on the conversation: does a
participant row `(conversationId, userId)` exist? -/
def hasParticipant (db : DB) (conversationId userId : String) : Bool :=
  db.participants.any
    (fun p => p.conversation_id == conversationId && p.user_id == userId)

/-- The scalar subquery `SELECT COUNT(*) FROM conversation_participants WHERE
conversation_id = c.id`. -/
def participantCount (db : DB) (conversationId : String) : Nat :=
  (db.participants.filter (fun p => p.conversation_id == conversationId)).length

/-- Predicate of the `findDirectConversationBetween` query on one
`conversations` row: both self-joins on `conversation_participants` succeed
(`cp1.user_id = u1`, `cp2.user_id = u2`), the row has `type = 'direct'`, and
the participant-count subquery returns exactly 2. -/
def matchesDirectBetween (db : DB) (c : Conversation) (u1 u2 : String) : Bool :=
  c.type == "direct" && hasParticipant db c.id u1 && hasParticipant db c.id u2 &&
    participantCount db c.id == 2

/-- The `findDirectConversationBetween` read: first conversation row
satisfying the query (`db.get` returns the first result row), then the
JavaScript `row?.id || null` — an empty-string id is coerced to null. -/
def findDirectConversationBetween (db : DB) (u1 u2 : String) : Option String :=
  match (db.conversations.find? (fun c => matchesDirectBetween db c u1 u2)).map
      Conversation.id with
  | some i => if i = "" then none else some i
  | none => none

/-- Result of `getOrCreateDirectConversation`: the store state afterwards and
the returned `{ id, created }` payload. -/
structure ConvResult where
  db : DB
  id : String
  created : Bool
deriving Repr, DecidableEq

/-- The `getOrCreateDirectConversation(user1, user2)` operation: look for an
existing direct conversation via `findDirectConversationBetween`; if none,
create a conversation row with the fresh id and `type = 'direct'` and add
both users via two `addParticipant` inserts. -/
def getOrCreateDirectConversation (db : DB) (user1 user2 newId now : String) :
    ConvResult :=
  match findDirectConversationBetween db user1 user2 with
  | some convId => ⟨db, convId, false⟩
  | none =>
    let db1 := createConversation db newId "direct" none now
    let db2 := addParticipant db1 newId user1
    let db3 := addParticipant db2 newId user2
    ⟨db3, newId, true⟩

/-- View model of one message row joined with the sender's username. -/
structure MessageView where
  id : String
  conversationId : String
  senderId : String
  senderUsername : String
  content : String
  createdAt : String
deriving Repr, DecidableEq

/-- Row mapping of `getConversationMessages` / `createMessage` reads. -/
def messageView (mu : Message × User) : MessageView :=
  ⟨mu.1.id, mu.1.conversation_id, mu.1.sender_id, mu.2.username, mu.1.content,
    mu.1.created_at⟩

/-- Messages of the conversation inner-joined with `users` on the sender
(`JOIN users u ON m.sender_id = u.id .. WHERE m.conversation_id = ?`). -/
def joinSenders (db : DB) (conversationId : String) : List (Message × User) :=
  (db.messages.filter (fun m => m.conversation_id == conversationId)).filterMap
    (fun m => (userById db m.sender_id).map (fun u => (m, u)))

/-- Rows feeding `getConversationMessages` before ordering: the sender join,
restricted to `m.created_at < before` when a `before` value is supplied and
truthy (the JavaScript `if (before)` skips the clause for the empty
string). -/
def conversationMessagesBase (db : DB) (conversationId : String) :
    Option String → List (Message × User)
  | some b =>
    if b = "" then joinSenders db conversationId
    else (joinSenders db conversationId).filter (fun mu => strLt mu.1.created_at b)
  | none => joinSenders db conversationId

/-- The `getConversationMessages(conversationId, {limit, before})` read:
fetch newest-first (`ORDER BY m.created_at DESC LIMIT ?`), then
`rows.reverse()` so the returned page is in ascending chronological order. -/
def getConversationMessages (db : DB) (conversationId : String)
    (limit : Nat := 50) (before : Option String := none) : List MessageView :=
  ((sortByKeyDesc (fun mu : Message × User => mu.1.created_at)
      (conversationMessagesBase db conversationId before)).take limit).reverse.map
    messageView

/-- The `createMessage` write as the code performs it: one `INSERT INTO
messages` statement, then a separate `UPDATE conversations SET
last_message_at = ?` statement, with no enclosing transaction. The two
oracle flags say whether each statement succeeds at the store; a statement
that is never reached leaves no effect, and a failed statement rolls back
only itself. Returns the store state and whether the operation completed. -/
def createMessage (db : DB) (id conversationId senderId content now : String)
    (insertOk updateOk : Bool) : DB × Bool :=
  if insertOk then
    let db1 :=
      { db with messages := db.messages ++ [⟨id, conversationId, senderId, content, now⟩] }
    if updateOk then
      ({ db1 with
          conversations := db1.conversations.map
            (fun c => if c.id = conversationId then { c with last_message_at := some now }
              else c) }, true)
    else (db1, false)
  else (db, false)

/-- Participant rows returned by `getConversationParticipants`:
`SELECT u.id, u.username, u.name FROM users u JOIN conversation_participants
cp ON u.id = cp.user_id WHERE cp.conversation_id = ?`. -/
def getConversationParticipants (db : DB) (conversationId : String) :
    List (String × String × String) :=
  (db.participants.filter (fun p => p.conversation_id == conversationId)).filterMap
    (fun p => (userById db p.user_id).map (fun u => (u.id, u.username, u.name)))

/-! ### Schema migration runner (`Migrator`, `src/unnamed/part_003`)

The runner is generic in the schema state `σ` the individual migrations act
on. A migration's forward change is a state transformer that reports whether
it succeeded and the state it leaves behind (a failing `up` keeps the partial
effects of the statements it ran before failing, since the runner wraps it in
no transaction). -/

/-- One migration file: its name and its forward change. -/
structure Migration (σ : Type) where
  name : String
  up : σ → Bool × σ

/-- Runner state: the schema state plus the `migrations` ledger table,
as the ordered list of recorded names (`SELECT name FROM migrations ORDER BY
id` returns them in insertion order). -/
structure MigState (σ : Type) where
  schema : σ
  ledger : List String
deriving Repr, DecidableEq

/-- The migration files in the order the runner visits them:
`fs.readdirSync(..).sort()` — lexicographic name order. -/
def sortMigrations {σ : Type} (files : List (Migration σ)) : List (Migration σ) :=
  files.insertionSort (fun a b => strLe a.name b.name = true)

/-- The pending list: files whose name the ledger does not contain, kept in
sorted order (`files.filter(file => !completed.includes(file))`). -/
def pendingOf {σ : Type} (files : List (Migration σ)) (ledger : List String) :
    List (Migration σ) :=
  (sortMigrations files).filter (fun m => !ledger.contains m.name)

/-- The runner's main loop over the pending list: run the forward change; on
success record the name in the ledger (`INSERT INTO migrations (name)`) and
continue; on failure stop at once, record nothing for the failing migration,
and surface its name as the error (`throw error`). -/
def runPending {σ : Type} : List (Migration σ) → MigState σ → MigState σ × Option String
  | [], st => (st, none)
  | m :: rest, st =>
    let r := m.up st.schema
    if r.1 then runPending rest ⟨r.2, st.ledger ++ [m.name]⟩
    else (⟨r.2, st.ledger⟩, some m.name)

/-- `Migrator.migrate()`: build the pending list from the sorted files and
the ledger, then run it; returns the final state and the failing migration's
name, if any. -/
def migrate {σ : Type} (files : List (Migration σ)) (st : MigState σ) :
    MigState σ × Option String :=
  runPending (pendingOf files st.ledger) st

/-- Run forward changes in sequence, reporting the reached state only when
every one succeeds (used to phrase hypotheses about where a run fails). -/
def chainUp {σ : Type} : List (Migration σ) → σ → Option σ
  | [], s => some s
  | m :: rest, s =>
    let r := m.up s
    if r.1 then chainUp rest r.2 else none

/-- Replace every stored password by an arbitrary function of the row; a read
result is password-independent when it is unchanged under every such
rewrite. -/
def setPasswords (db : DB) (g : User → String) : DB :=
  { db with users := db.users.map (fun u => { u with password := g u }) }

/-! ### Concrete fixtures for counterexamples and witnesses -/

/-- A user row with empty profile fields. -/
def mkUser (id email username password : String) : User :=
  ⟨id, email, username, password, "", "", "", "2024-01-01T00:00:00Z"⟩

/-- The empty store. -/
def emptyDB : DB := ⟨[], [], [], [], [], [], [], []⟩

/-- Fixture: an existing direct conversation `c1` between `ua` and `ub`. -/
def dbPair : DB :=
  { emptyDB with
    users := [mkUser "ua" "a@x.com" "alice" "pw1", mkUser "ub" "b@x.com" "bob" "pw2"],
    conversations := [⟨"c1", "direct", none, "2024-01-01T00:00:00Z", none⟩],
    participants := [⟨"c1", "ua"⟩, ⟨"c1", "ub"⟩] }

/-- Fixture: conversation `c1` whose `last_message_at` was set by an earlier
message. -/
def dbConv : DB :=
  { emptyDB with
    users := [mkUser "u1" "e@x.com" "alice" "pw"],
    conversations :=
      [⟨"c1", "direct", none, "2024-01-01T00:00:00Z", some "2024-01-02T00:00:00Z"⟩],
    participants := [⟨"c1", "u1"⟩] }

/-- Fixture for the spec's feed/explore scenario, built with the repository's
own write operations: accounts `uA` and `uB` are created, `uA` follows `uB`,
and `uB` creates post `p1` with content "hello". -/
def dbScenario : DB :=
  createPost
    (followUser
      (createUser (createUser emptyDB "uA" "a@x.com" "alice" "pwA" "2024-01-01T00:00:00Z")
        "uB" "b@x.com" "bob" "pwB" "2024-01-01T00:00:01Z")
      "uA" "uB")
    "p1" "uB" "hello" none "2024-01-02T00:00:00Z"

/-- Fixture: conversation `c1` with three messages at increasing
timestamps. -/
def dbMsgs : DB :=
  { emptyDB with
    users := [mkUser "u1" "e@x.com" "alice" "pw"],
    conversations := [⟨"c1", "direct", none, "2024-01-01T00:00:00Z", none⟩],
    participants := [⟨"c1", "u1"⟩],
    messages := [⟨"m1", "c1", "u1", "one", "2024-01-01T00:00:01Z"⟩,
                 ⟨"m2", "c1", "u1", "two", "2024-01-01T00:00:02Z"⟩,
                 ⟨"m3", "c1", "u1", "three", "2024-01-01T00:00:03Z"⟩] }

/-- Fixture: a searchable user `ab` with two followers, and the searching
user `me`. -/
def dbSearch : DB :=
  { emptyDB with
    users := [mkUser "u1" "e1@x.com" "ab" "pw", mkUser "me" "e2@x.com" "zzz" "pw"],
    follows := [⟨"me", "u1"⟩, ⟨"ux", "u1"⟩] }

/-- Fixture: a single user whose stored password is `secret1`. -/
def dbPwA : DB := { emptyDB with users := [mkUser "u1" "e@x.com" "alice" "secret1"] }

/-- `dbPwA` with the stored password changed to `secret2` and nothing else. -/
def dbPwB : DB := { emptyDB with users := [mkUser "u1" "e@x.com" "alice" "secret2"] }

/-- Sample migration: succeeds, bumping a numeric schema version by 1. -/
def migOkA : Migration Nat := ⟨"001_init", fun s => (true, s + 1)⟩

/-- Sample migration: fails, leaving partial effects (+100). -/
def migFailB : Migration Nat := ⟨"002_break", fun s => (false, s + 100)⟩

/-- Sample migration: succeeds, bumping the schema version by 10. -/
def migOkC : Migration Nat := ⟨"003_more", fun s => (true, s + 10)⟩

/-! ### Order lemmas for the BINARY-collation comparators -/

theorem chLe_total : ∀ x y : List Char, chLe x y = true ∨ chLe y x = true
  | [], _ => Or.inl rfl
  | _ :: _, [] => Or.inr rfl
  | a :: as, b :: bs => by
    by_cases hab : a = b
    · subst hab
      simpa [chLe] using chLe_total as bs
    · have hba : b ≠ a := fun h => hab h.symm
      have : a.toNat < b.toNat ∨ b.toNat < a.toNat := by
        rcases Nat.lt_trichotomy a.toNat b.toNat with h | h | h
        · exact Or.inl h
        · exact absurd (Char.ext (UInt32.ext h)) hab
        · exact Or.inr h
      rcases this with h | h
      · exact Or.inl (by simp [chLe, hab, h])
      · exact Or.inr (by simp [chLe, hba, h])

theorem chLe_trans : ∀ x y z : List Char,
    chLe x y = true → chLe y z = true → chLe x z = true
  | [], _, _, _, _ => rfl
  | a :: as, [], _, hxy, _ => by simp [chLe] at hxy
  | a :: as, b :: bs, [], _, hyz => by simp [chLe] at hyz
  | a :: as, b :: bs, c :: cs, hxy, hyz => by
    by_cases hab : a = b <;> by_cases hbc : b = c
    · subst hab; subst hbc
      simp only [chLe, if_pos rfl] at hxy hyz ⊢
      exact chLe_trans as bs cs hxy hyz
    · subst hab
      simpa [chLe, hbc] using hyz
    · subst hbc
      simpa [chLe, hab] using hxy
    · simp only [chLe, if_neg hab] at hxy
      simp only [chLe, if_neg hbc] at hyz
      have hac : a.toNat < c.toNat :=
        Nat.lt_trans (by simpa using hxy) (by simpa using hyz)
      have hane : a ≠ c := fun h => Nat.lt_irrefl _ (h ▸ hac)
      simp [chLe, hane, hac]

theorem strLe_total (x y : String) : strLe x y = true ∨ strLe y x = true :=
  chLe_total _ _

theorem strLe_trans {x y z : String} (h1 : strLe x y = true) (h2 : strLe y z = true) :
    strLe x z = true :=
  chLe_trans _ _ _ h1 h2

/-! ### Sorting lemmas -/

theorem sortByKeyDesc_perm {α : Type} (key : α → String) (l : List α) :
    (sortByKeyDesc key l).Perm l :=
  List.perm_insertionSort _ l

theorem sortByKeyDesc_pairwise {α : Type} (key : α → String) (l : List α) :
    (sortByKeyDesc key l).Pairwise (fun a b => strLe (key b) (key a) = true) := by
  letI : IsTotal α (fun a b => strLe (key b) (key a) = true) :=
    ⟨fun a b => (strLe_total (key b) (key a)).elim Or.inl Or.inr⟩
  letI : IsTrans α (fun a b => strLe (key b) (key a) = true) :=
    ⟨fun _ _ _ h1 h2 => strLe_trans h2 h1⟩
  exact List.sorted_insertionSort _ l

theorem sortByKeyAsc_perm {α : Type} (key : α → String) (l : List α) :
    (sortByKeyAsc key l).Perm l :=
  List.perm_insertionSort _ l

theorem sortByKeyAsc_pairwise {α : Type} (key : α → String) (l : List α) :
    (sortByKeyAsc key l).Pairwise (fun a b => strLe (key a) (key b) = true) := by
  letI : IsTotal α (fun a b => strLe (key a) (key b) = true) :=
    ⟨fun a b => (strLe_total (key a) (key b)).elim Or.inl Or.inr⟩
  letI : IsTrans α (fun a b => strLe (key a) (key b) = true) :=
    ⟨fun _ _ _ h1 h2 => strLe_trans h1 h2⟩
  exact List.sorted_insertionSort _ l

/-- Everything dropped by a `LIMIT` cut of a descending sort is at most (in
key order) everything kept: `take` keeps the largest keys. -/
theorem sortByKeyDesc_drop_le_take {α : Type} (key : α → String) (l : List α) (n : Nat) :
    ∀ a ∈ (sortByKeyDesc key l).take n, ∀ b ∈ (sortByKeyDesc key l).drop n,
      strLe (key b) (key a) = true := by
  have h := sortByKeyDesc_pairwise key l
  rw [← List.take_append_drop n (sortByKeyDesc key l), List.pairwise_append] at h
  exact h.2.2

/-! ### `GROUP_CONCAT` / `split(',')` round-trip lemmas -/

theorem splitOnChar_no_sep {sep : Char} : ∀ {x : List Char}, sep ∉ x →
    splitOnChar sep x = [x]
  | [], _ => rfl
  | c :: t, h => by
    have hc : c ≠ sep := fun hcs => h (hcs ▸ List.mem_cons_self c t)
    have ht : sep ∉ t := fun hts => h (List.mem_cons_of_mem c hts)
    simp [splitOnChar, hc, splitOnChar_no_sep ht]

theorem splitOnChar_append {sep : Char} : ∀ {x : List Char} (r : List Char), sep ∉ x →
    splitOnChar sep (x ++ sep :: r) = x :: splitOnChar sep r
  | [], r, _ => by simp [splitOnChar]
  | c :: t, r, h => by
    have hc : c ≠ sep := fun hcs => h (hcs ▸ List.mem_cons_self c t)
    have ht : sep ∉ t := fun hts => h (List.mem_cons_of_mem c hts)
    have ih := splitOnChar_append r ht
    simp [splitOnChar, hc, ih]

theorem splitOnChar_joinChar {sep : Char} : ∀ {xs : List (List Char)}, xs ≠ [] →
    (∀ x ∈ xs, sep ∉ x) → splitOnChar sep (joinChar sep xs) = xs
  | [], hne, _ => absurd rfl hne
  | [x], _, h => by
    simpa [joinChar] using splitOnChar_no_sep (h x (List.mem_singleton_self x))
  | x :: y :: rest, _, h => by
    have hx : sep ∉ x := h x (List.mem_cons_self _ _)
    have hrest : ∀ z ∈ y :: rest, sep ∉ z := fun z hz => h z (List.mem_cons_of_mem x hz)
    have ih := splitOnChar_joinChar (List.cons_ne_nil y rest) hrest
    show splitOnChar sep (x ++ sep :: joinChar sep (y :: rest)) = x :: y :: rest
    rw [splitOnChar_append _ hx, ih]

/-- A nonempty identifier rebuilt from its characters is itself. -/
theorem string_mk_toList (s : String) : String.mk s.toList = s := rfl

/-- A `goodId` identifier has at least one character. -/
theorem goodId_toList_ne_nil {s : String} (h : goodId s) : s.toList ≠ [] := by
  intro hnil
  exact h.1 (by simpa using congrArg String.mk hnil)

/-- The `GROUP_CONCAT(DISTINCT ..)`-then-`split(',')` round trip returns the
aggregated values unchanged whenever every value is nonempty and comma-free
— in particular for the UUID identifiers this system generates. -/
theorem concatSplit_eq : ∀ {ids : List String}, (∀ id ∈ ids, goodId id) →
    concatSplit ids = ids
  | [], _ => rfl
  | a :: rest, h => by
    have hmapne : (a :: rest).map String.toList ≠ [] := by simp
    have hnosep : ∀ x ∈ (a :: rest).map String.toList, ',' ∉ x := by
      intro x hx
      rcases List.mem_map.mp hx with ⟨s, hs, rfl⟩
      exact (h s hs).2
    have hsplit := splitOnChar_joinChar hmapne hnosep
    have hjoin_ne : joinChar ',' ((a :: rest).map String.toList) ≠ [] := by
      cases rest with
      | nil =>
        simpa [joinChar] using goodId_toList_ne_nil (h a (List.mem_cons_self a []))
      | cons b rs =>
        show a.toList ++ ',' :: joinChar ',' ((b :: rs).map String.toList) ≠ []
        intro hcontra
        rcases List.append_eq_nil.mp hcontra with ⟨_, h2⟩
        exact List.cons_ne_nil _ _ h2
    unfold concatSplit
    rw [if_neg hjoin_ne, hsplit, List.map_map]
    exact List.map_congr_left (fun s _ => rfl) |>.trans (List.map_id _)

/-! ### Soundness of `LIKE '%q%'` against substring containment -/

/-- A wildcard-free pattern followed by the closing `%` accepts only strings
whose lowercase form begins with the pattern's lowercase form. -/
theorem likeMatch_lit_sound : ∀ (q : List Char) (s : List Char), '%' ∉ q → '_' ∉ q →
    likeMatch (q ++ ['%']) s = true →
    (q.map Char.toLower).isPrefixOf (s.map Char.toLower) = true
  | [], s, _, _, _ => by simp [List.isPrefixOf]
  | a :: q', s, hpct, hund, hmatch => by
    have ha_pct : a ≠ '%' := fun h => hpct (h ▸ List.mem_cons_self a q')
    have ha_und : a ≠ '_' := fun h => hund (h ▸ List.mem_cons_self a q')
    have hq_pct : '%' ∉ q' := fun h => hpct (List.mem_cons_of_mem a h)
    have hq_und : '_' ∉ q' := fun h => hund (List.mem_cons_of_mem a h)
    cases s with
    | nil =>
      rw [List.cons_append, likeMatch.eq_def] at hmatch
      simp [ha_pct] at hmatch
    | cons c t =>
      rw [List.cons_append, likeMatch.eq_def] at hmatch
      simp only [if_neg ha_pct, if_neg ha_und, Bool.and_eq_true] at hmatch
      have ih := likeMatch_lit_sound q' t hq_pct hq_und hmatch.2
      simp only [List.map_cons, List.isPrefixOf, Bool.and_eq_true]
      refine ⟨?_, ih⟩
      simpa using hmatch.1

/-- A pattern accepted somewhere in some suffix yields substring containment:
`anySuffix` over the literal matcher is sound for `listContains`. -/
theorem anySuffix_lit_sound (q : List Char) (hpct : '%' ∉ q) (hund : '_' ∉ q) :
    ∀ s : List Char, anySuffix (likeMatch (q ++ ['%'])) s = true →
      listContains (q.map Char.toLower) (s.map Char.toLower) = true
  | [], h => by
    have hpre := likeMatch_lit_sound q [] hpct hund (by simpa [anySuffix] using h)
    cases hq : q.map Char.toLower with
    | nil => rfl
    | cons x xs =>
      rw [hq] at hpre
      exact absurd hpre (by simp [List.isPrefixOf])
  | c :: t, h => by
    rw [anySuffix, Bool.or_eq_true] at h
    rw [List.map_cons, listContains, Bool.or_eq_true]
    rcases h with h | h
    · have := likeMatch_lit_sound q (c :: t) hpct hund h
      rw [List.map_cons] at this
      exact Or.inl this
    · exact Or.inr (anySuffix_lit_sound q hpct hund t h)

/-- Soundness of the `searchUsers` pattern test against the spec's substring
reading: when the query contains no `LIKE` wildcard, any username accepted by
`LIKE '%query%'` contains the query as a case-insensitive substring. -/
theorem likeContains_sound {q s : String} (hw : noWildcards q)
    (h : likeContains q s = true) : ciSubstr q s = true := by
  unfold likeContains at h
  rw [likeMatch.eq_def] at h
  simp only [if_pos rfl] at h
  exact anySuffix_lit_sound q.toList hw.1 hw.2 s.toList h

/-! ### Migration runner lemmas -/

/-- A fully successful pending run appends every pending name to the ledger,
in order, and reports no error. -/
theorem runPending_ok {σ : Type} : ∀ (pend : List (Migration σ)) (st : MigState σ)
    {s' : σ}, chainUp pend st.schema = some s' →
    runPending pend st = (⟨s', st.ledger ++ pend.map (fun m => m.name)⟩, none)
  | [], st, s', h => by
    simp only [chainUp, Option.some_inj] at h
    simp [runPending, ← h]
  | m :: rest, st, s', h => by
    rw [chainUp] at h
    rw [runPending]
    by_cases hok : (m.up st.schema).1
    · rw [if_pos hok] at h ⊢
      rw [runPending_ok rest _ h]
      simp
    · rw [if_neg hok] at h
      exact absurd h (by simp)

/-- A pending run that reaches migration `j` (all earlier ones succeeding)
whose forward change then fails stops there: the ledger gains exactly the
names before `j`, the schema is whatever the failing change left behind, and
the failing name is surfaced as the error. -/
theorem runPending_fail {σ : Type} :
    ∀ (pend : List (Migration σ)) (st : MigState σ) (j : Nat) (hj : j < pend.length)
      {s' sBad : σ}, chainUp (pend.take j) st.schema = some s' →
      (pend.get ⟨j, hj⟩).up s' = (false, sBad) →
      runPending pend st =
        (⟨sBad, st.ledger ++ (pend.take j).map (fun m => m.name)⟩,
          some (pend.get ⟨j, hj⟩).name)
  | [], _, j, hj, _, _, _, _ => absurd hj (by simp)
  | m :: rest, st, 0, hj, s', sBad, hchain, hfail => by
    simp only [List.take_zero, chainUp, Option.some_inj] at hchain
    subst hchain
    simp only [List.get] at hfail
    rw [runPending]
    rw [hfail]
    simp
  | m :: rest, st, j + 1, hj, s', sBad, hchain, hfail => by
    rw [List.take_succ_cons, chainUp] at hchain
    by_cases hok : (m.up st.schema).1
    · rw [if_pos hok] at hchain
      simp only [List.get] at hfail
      have ih := runPending_fail rest ⟨(m.up st.schema).2, st.ledger ++ [m.name]⟩ j
        (by simpa using hj) hchain hfail
      rw [runPending, if_pos hok, ih]
      simp [List.take_succ_cons]
    · rw [if_neg hok] at hchain
      exact absurd hchain (by simp)

/-- After a successful `migrate()` the ledger is the old ledger plus every
pending name. -/
theorem migrate_ok_ledger {σ : Type} {files : List (Migration σ)} {st : MigState σ}
    (h : (migrate files st).2 = none) :
    (migrate files st).1.ledger =
      st.ledger ++ (pendingOf files st.ledger).map (fun m => m.name) ∧
      (migrate files st).1.schema =
        ((migrate files st).1.schema) := by
  refine ⟨?_, rfl⟩
  unfold migrate at h ⊢
  generalize hp : pendingOf files st.ledger = pend at h ⊢
  clear hp
  induction pend generalizing st with
  | nil => simp [runPending]
  | cons m rest ih =>
    rw [runPending] at h ⊢
    by_cases hok : (m.up st.schema).1
    · rw [if_pos hok] at h ⊢
      have := ih h
      simpa using this
    · rw [if_neg hok] at h
      exact absurd h (by simp)

/-! ### Password independence machinery (for the credential-leak claim)

A read result carries no password information exactly when it is unchanged
under an arbitrary rewrite of every stored password. `setPasswords` performs
such a rewrite. -/

theorem userById_setPasswords (db : DB) (g : User → String) (uid : String) :
    userById (setPasswords db g) uid =
      (userById db uid).map (fun u => { u with password := g u }) := by
  unfold userById setPasswords
  rw [show ({ db with users := db.users.map (fun u => { u with password := g u }) } :
    DB).users = db.users.map (fun u => { u with password := g u }) from rfl]
  rw [List.find?_map]
  rfl

theorem option_pair_map {β : Type} (o : Option User) (f : User → User) (a : β) :
    (o.map f).map (fun u => (a, u)) =
      (o.map (fun u => (a, u))).map (fun p => (p.1, f p.2)) := by
  cases o <;> rfl

/-- Joining any row list with `users` in a password-rewritten store gives the
original join with the rewrite applied to the user component. -/
theorem joinUsers_setPasswords {α : Type} (db : DB) (g : User → String)
    (l : List α) (uidOf : α → String) :
    l.filterMap (fun a => (userById (setPasswords db g) (uidOf a)).map (fun u => (a, u))) =
      (l.filterMap (fun a => (userById db (uidOf a)).map (fun u => (a, u)))).map
        (fun p => (p.1, { p.2 with password := g p.2 })) := by
  simp only [userById_setPasswords, option_pair_map]
  rw [← List.map_filterMap]

/-- Descending key sort commutes with any key-preserving map. -/
theorem sortByKeyDesc_map {α β : Type} (f : α → β) (key : β → String) (l : List α) :
    sortByKeyDesc key (l.map f) = (sortByKeyDesc (fun a => key (f a)) l).map f := by
  unfold sortByKeyDesc
  exact (List.map_insertionSort _ _ f l (fun a _ b _ => Iff.rfl)).symm

/-- Ascending key sort commutes with any key-preserving map. -/
theorem sortByKeyAsc_map {α β : Type} (f : α → β) (key : β → String) (l : List α) :
    sortByKeyAsc key (l.map f) = (sortByKeyAsc (fun a => key (f a)) l).map f := by
  unfold sortByKeyAsc
  exact (List.map_insertionSort _ _ f l (fun a _ b _ => Iff.rfl)).symm

theorem getPostComments_setPasswords (db : DB) (g : User → String) (pid : String) :
    getPostComments (setPasswords db g) pid = getPostComments db pid := by
  unfold getPostComments
  rw [show (setPasswords db g).comments = db.comments from rfl,
    joinUsers_setPasswords db g _ Comment.user_id, sortByKeyAsc_map, List.map_map]
  rfl

theorem getUserById_setPasswords (db : DB) (g : User → String) (uid : String) :
    getUserById (setPasswords db g) uid = getUserById db uid := by
  unfold getUserById
  rw [show (setPasswords db g).users.find? (fun u => u.id == uid) =
    userById (setPasswords db g) uid from rfl, userById_setPasswords,
    Option.map_map]
  rfl

theorem searchUsers_setPasswords (db : DB) (g : User → String) (q x : String) :
    searchUsers (setPasswords db g) q x = searchUsers db q x := by
  unfold searchUsers
  rw [show (setPasswords db g).users = db.users.map
    (fun u => { u with password := g u }) from rfl, List.filter_map,
    ← List.map_take, List.map_map]
  rfl

theorem getConversationParticipants_setPasswords (db : DB) (g : User → String)
    (cid : String) :
    getConversationParticipants (setPasswords db g) cid =
      getConversationParticipants db cid := by
  unfold getConversationParticipants
  rw [show (setPasswords db g).participants = db.participants from rfl]
  refine List.filterMap_congr (fun p _ => ?_)
  rw [userById_setPasswords]
  cases userById db p.user_id <;> rfl

theorem getFeedPosts_setPasswords (db : DB) (g : User → String) (uid : String) :
    getFeedPosts (setPasswords db g) uid = getFeedPosts db uid := by
  unfold getFeedPosts joinAuthor
  have hbase : feedBase (setPasswords db g) uid = feedBase db uid := rfl
  rw [hbase, joinUsers_setPasswords db g _ Post.user_id, sortByKeyDesc_map,
    ← List.map_take, List.map_map]
  refine List.map_congr_left (fun pu _ => ?_)
  show enrichPost (setPasswords db g) (pu.1, { pu.2 with password := g pu.2 }) =
    enrichPost db pu
  unfold enrichPost
  rw [show likerIdsOf (setPasswords db g) pu.1.id = likerIdsOf db pu.1.id from rfl,
    getPostComments_setPasswords]

theorem getConversationMessages_setPasswords (db : DB) (g : User → String)
    (cid : String) (limit : Nat) (before : Option String) :
    getConversationMessages (setPasswords db g) cid limit before =
      getConversationMessages db cid limit before := by
  have hjoin : joinSenders (setPasswords db g) cid =
      (joinSenders db cid).map (fun p => (p.1, { p.2 with password := g p.2 })) := by
    unfold joinSenders
    rw [show (setPasswords db g).messages = db.messages from rfl,
      joinUsers_setPasswords db g _ Message.sender_id]
  cases before with
  | none =>
    unfold getConversationMessages
    rw [conversationMessagesBase, conversationMessagesBase, hjoin, sortByKeyDesc_map,
      ← List.map_take, ← List.map_reverse, List.map_map]
    rfl
  | some b =>
    unfold getConversationMessages
    rw [conversationMessagesBase, conversationMessagesBase]
    by_cases hb : b = ""
    · rw [if_pos hb, if_pos hb, hjoin, sortByKeyDesc_map, ← List.map_take,
        ← List.map_reverse, List.map_map]
      rfl
    · rw [if_neg hb, if_neg hb, hjoin, List.filter_map, sortByKeyDesc_map,
        ← List.map_take, ← List.map_reverse, List.map_map]
      rfl

/-! ### Claim theorems -/

/-- C8: after `deletePost(P)` no like row and no comment row referencing `P`
remains; the cleanup is the store's doing, via the `ON DELETE CASCADE`
declarations of the `likes` and `comments` tables, while the repository
issues exactly one statement — the post delete — and never a manual
child-row delete. -/
theorem deletePost_cascade_spec (db : DB) (postId : String) :
    (∀ l ∈ (deletePost db postId).likes, l.post_id ≠ postId) ∧
    (∀ c ∈ (deletePost db postId).comments, c.post_id ≠ postId) ∧
    deletePostStmts postId = [DelStmt.delPost postId] ∧
    ∀ s ∈ deletePostStmts postId,
      (∀ pid, s ≠ DelStmt.delLikesOf pid) ∧ (∀ pid, s ≠ DelStmt.delCommentsOf pid) := by
  refine ⟨?_, ?_, rfl, ?_⟩
  · intro l hl
    have : l ∈ db.likes.filter (fun l => l.post_id != postId) := hl
    have hpred := (List.mem_filter.mp this).2
    simpa using hpred
  · intro c hc
    have : c ∈ db.comments.filter (fun c => c.post_id != postId) := hc
    have hpred := (List.mem_filter.mp this).2
    simpa using hpred
  · intro s hs
    have : s = DelStmt.delPost postId := by simpa [deletePostStmts] using hs
    subst this
    exact ⟨fun pid => by simp, fun pid => by simp⟩

/-- C2 (failing-path evaluation): `createMessage` runs its two writes as
separate statements with no transaction. On the concrete store `dbConv`,
when the message insert succeeds and the `last_message_at` update then fails,
the operation reports failure yet the new message remains visible while the
conversation's `last_message_at` still holds its old value — the state is
not "as if neither write happened", and a later read observes the new
message without the updated `last_message_at`. -/
theorem createMessage_not_atomic :
    (createMessage dbConv "m9" "c1" "u1" "hi" "2024-03-01T00:00:00Z" true false).2
        = false ∧
    (createMessage dbConv "m9" "c1" "u1" "hi" "2024-03-01T00:00:00Z" true false).1.messages
        = [⟨"m9", "c1", "u1", "hi", "2024-03-01T00:00:00Z"⟩] ∧
    (createMessage dbConv "m9" "c1" "u1" "hi" "2024-03-01T00:00:00Z" true false).1.conversations
        = [⟨"c1", "direct", none, "2024-01-01T00:00:00Z", some "2024-01-02T00:00:00Z"⟩] ∧
    (createMessage dbConv "m9" "c1" "u1" "hi" "2024-03-01T00:00:00Z" true false).1 ≠ dbConv := by
  refine ⟨rfl, rfl, rfl, ?_⟩
  decide

theorem sortMigrations_pairwise {σ : Type} (files : List (Migration σ)) :
    (sortMigrations files).Pairwise (fun a b => strLe a.name b.name = true) := by
  letI : IsTotal (Migration σ) (fun a b => strLe a.name b.name = true) :=
    ⟨fun a b => (strLe_total a.name b.name).elim Or.inl Or.inr⟩
  letI : IsTrans (Migration σ) (fun a b => strLe a.name b.name = true) :=
    ⟨fun _ _ _ h1 h2 => strLe_trans h1 h2⟩
  exact List.sorted_insertionSort _ files

theorem pendingOf_pairwise {σ : Type} (files : List (Migration σ)) (led : List String) :
    (pendingOf files led).Pairwise (fun a b => strLe a.name b.name = true) :=
  List.Pairwise.sublist (List.filter_sublist _) (sortMigrations_pairwise files)

theorem pendingOf_names_nodup {σ : Type} {files : List (Migration σ)} (led : List String)
    (h : (files.map (fun m => m.name)).Nodup) :
    ((pendingOf files led).map (fun m => m.name)).Nodup := by
  have hperm : (sortMigrations files).Perm files := List.perm_insertionSort _ _
  have hsorted_nodup : ((sortMigrations files).map (fun m => m.name)).Nodup :=
    ((hperm.map (fun m => m.name)).nodup_iff).mpr h
  have hsub : (pendingOf files led).Sublist (sortMigrations files) :=
    List.filter_sublist _
  exact List.Nodup.sublist (hsub.map (fun m => m.name)) hsorted_nodup

theorem mem_pendingOf_not_in_ledger {σ : Type} {files : List (Migration σ)}
    {led : List String} {m : Migration σ} (hm : m ∈ pendingOf files led) :
    m.name ∉ led := by
  have := (List.mem_filter.mp hm).2
  simpa using this

/-- C5: `migrate()` visits the pending migrations in lexicographic name
order; when the forward change of the `j`-th pending migration fails (after
the earlier ones succeeded), the run produces exactly the ledger extended by
the names before `j`, surfaces the failing migration's name as the error,
records the failing migration nowhere, and never reaches any later pending
migration (whose names are likewise absent from the final ledger). -/
theorem migrate_stops_at_first_failure {σ : Type} (files : List (Migration σ))
    (st : MigState σ) (j : Nat) (hj : j < (pendingOf files st.ledger).length)
    (s' sBad : σ)
    (hnodup : (files.map (fun m => m.name)).Nodup)
    (hchain : chainUp ((pendingOf files st.ledger).take j) st.schema = some s')
    (hfail : ((pendingOf files st.ledger).get ⟨j, hj⟩).up s' = (false, sBad)) :
    (pendingOf files st.ledger).Pairwise (fun a b => strLe a.name b.name = true) ∧
    migrate files st =
      (⟨sBad, st.ledger ++ ((pendingOf files st.ledger).take j).map (fun m => m.name)⟩,
        some ((pendingOf files st.ledger).get ⟨j, hj⟩).name) ∧
    ((pendingOf files st.ledger).get ⟨j, hj⟩).name ∉ (migrate files st).1.ledger ∧
    (∀ m ∈ (pendingOf files st.ledger).drop (j + 1),
      m.name ∉ (migrate files st).1.ledger) := by
  set pend := pendingOf files st.ledger with hpend
  have hrun : migrate files st =
      (⟨sBad, st.ledger ++ (pend.take j).map (fun m => m.name)⟩,
        some (pend.get ⟨j, hj⟩).name) :=
    runPending_fail pend st j hj hchain hfail
  have hledger : (migrate files st).1.ledger =
      st.ledger ++ (pend.take j).map (fun m => m.name) := by rw [hrun]
  have hnames : (pend.map (fun m => m.name)).Nodup := pendingOf_names_nodup _ hnodup
  -- decompose the pending name list around index j
  have hsplit : pend.map (fun m => m.name) =
      (pend.take j).map (fun m => m.name) ++
        (pend.get ⟨j, hj⟩).name :: (pend.drop (j + 1)).map (fun m => m.name) := by
    conv_lhs => rw [← List.take_append_drop j pend]
    rw [List.map_append, List.drop_eq_getElem_cons hj]
    rfl
  rw [hsplit] at hnames
  rw [List.nodup_append] at hnames
  refine ⟨pendingOf_pairwise files st.ledger, hrun, ?_, ?_⟩
  · rw [hledger]
    intro hmem
    rcases List.mem_append.mp hmem with h | h
    · exact mem_pendingOf_not_in_ledger (List.getElem_mem hj) h
    · exact hnames.2.2 h (List.mem_cons_self _ _)
  · intro m hm
    rw [hledger]
    intro hmem
    rcases List.mem_append.mp hmem with h | h
    · exact mem_pendingOf_not_in_ledger (List.mem_of_mem_drop hm) h
    · have hmm : m.name ∈ (pend.get ⟨j, hj⟩).name ::
          (pend.drop (j + 1)).map (fun m => m.name) :=
        List.mem_cons_of_mem _ (List.mem_map_of_mem _ hm)
      exact hnames.2.2 h hmm

/-- C5 witness: two files given unsorted; `001_init` succeeds, `002_break`
fails at schema state 1 leaving 101; the run stops with `002_break` as the
error, ledger `["001_init"]`. -/
theorem migrate_stops_at_first_failure_witness :
    migrate [migFailB, migOkA] ⟨0, []⟩ = (⟨101, ["001_init"]⟩, some "002_break") := by
  have h := migrate_stops_at_first_failure [migFailB, migOkA] ⟨0, []⟩ 1
    (by decide) 1 101 (by decide) (by decide) (by decide)
  exact h.2.1

/-- C6: a second `migrate()` run immediately after a successful one, with the
same migration files, finds nothing pending and returns the state — ledger
included — unchanged, with no error. -/
theorem migrate_idempotent {σ : Type} (files : List (Migration σ)) (st : MigState σ)
    (hok : (migrate files st).2 = none) :
    pendingOf files (migrate files st).1.ledger = [] ∧
    migrate files (migrate files st).1 = ((migrate files st).1, none) := by
  have hledger := (migrate_ok_ledger hok).1
  have hpending : pendingOf files (migrate files st).1.ledger = [] := by
    unfold pendingOf
    rw [List.filter_eq_nil_iff]
    intro m hm
    simp only [Bool.not_eq_true', Bool.not_eq_false]
    have : m.name ∈ (migrate files st).1.ledger := by
      rw [hledger]
      by_cases hin : m.name ∈ st.ledger
      · exact List.mem_append.mpr (Or.inl hin)
      · refine List.mem_append.mpr (Or.inr ?_)
        refine List.mem_map_of_mem _ ?_
        refine List.mem_filter.mpr ⟨hm, ?_⟩
        simpa using hin
    simpa using this
  refine ⟨hpending, ?_⟩
  show runPending (pendingOf files (migrate files st).1.ledger) (migrate files st).1 = _
  rw [hpending]
  rfl

/-- C6 witness: running the two sample successful migrations twice — the
second run changes nothing and reports no error. -/
theorem migrate_idempotent_witness :
    migrate [migOkA, migOkC] (migrate [migOkA, migOkC] ⟨0, []⟩).1 =
      ((migrate [migOkA, migOkC] ⟨0, []⟩).1, none) :=
  (migrate_idempotent [migOkA, migOkC] ⟨0, []⟩ (by decide)).2

/-- C4: `getConversationMessages` returns at most `limit` rows; when a
(truthy) `before` bound is supplied every returned row is strictly older;
the returned page is always in ascending chronological order; without a
`before` bound the page consists of the newest rows — anything left out is
no newer than anything returned; and on the concrete three-message store the
two-row page is exactly the two newest messages, ascending. -/
theorem getConversationMessages_spec (db : DB) (cid : String) (limit : Nat)
    (before : Option String) :
    (getConversationMessages db cid limit before).length ≤ limit ∧
    (∀ b, before = some b → b ≠ "" →
      ∀ v ∈ getConversationMessages db cid limit before, strLt v.createdAt b = true) ∧
    (getConversationMessages db cid limit before).Pairwise
      (fun v w => strLe v.createdAt w.createdAt = true) ∧
    (∀ mu ∈ conversationMessagesBase db cid before,
      messageView mu ∉ getConversationMessages db cid limit before →
      ∀ v ∈ getConversationMessages db cid limit before,
        strLe mu.1.created_at v.createdAt = true) ∧
    getConversationMessages dbMsgs "c1" 2 none =
      [⟨"m2", "c1", "u1", "alice", "two", "2024-01-01T00:00:02Z"⟩,
       ⟨"m3", "c1", "u1", "alice", "three", "2024-01-01T00:00:03Z"⟩] := by
  refine ⟨?_, ?_, ?_, ?_, by decide⟩
  · show (((sortByKeyDesc (fun mu : Message × User => mu.1.created_at)
      (conversationMessagesBase db cid before)).take limit).reverse.map
        messageView).length ≤ limit
    rw [List.length_map, List.length_reverse, List.length_take]
    exact min_le_left _ _
  · intro b hb hbne v hv
    subst hb
    rcases List.mem_map.mp hv with ⟨mu, hmu, rfl⟩
    have hmu2 : mu ∈ (sortByKeyDesc (fun mu : Message × User => mu.1.created_at)
        (conversationMessagesBase db cid (some b))).take limit :=
      List.mem_reverse.mp hmu
    have hmu3 := (sortByKeyDesc_perm _ _).mem_iff.mp (List.mem_of_mem_take hmu2)
    have hbase : conversationMessagesBase db cid (some b) =
        (joinSenders db cid).filter (fun mu => strLt mu.1.created_at b) := by
      rw [conversationMessagesBase, if_neg hbne]
    rw [hbase] at hmu3
    exact (List.mem_filter.mp hmu3).2
  · rw [show getConversationMessages db cid limit before =
      ((sortByKeyDesc (fun mu : Message × User => mu.1.created_at)
        (conversationMessagesBase db cid before)).take limit).reverse.map
          messageView from rfl]
    rw [List.pairwise_map, List.pairwise_reverse]
    exact List.Pairwise.sublist (List.take_sublist _ _)
      (sortByKeyDesc_pairwise _ _)
  · intro mu hmu hnot v hv
    have hmus : mu ∈ sortByKeyDesc (fun mu : Message × User => mu.1.created_at)
        (conversationMessagesBase db cid before) :=
      (sortByKeyDesc_perm _ _).mem_iff.mpr hmu
    rw [← List.take_append_drop limit (sortByKeyDesc _ _)] at hmus
    rcases List.mem_append.mp hmus with htake | hdrop
    · exact absurd (List.mem_map_of_mem messageView (List.mem_reverse.mpr htake)) hnot
    · rcases List.mem_map.mp hv with ⟨a, ha, rfl⟩
      have ha2 := List.mem_reverse.mp ha
      exact sortByKeyDesc_drop_le_take _ _ limit a ha2 mu hdrop

/-- C4 witness: on the three-message store with `before` the top timestamp,
the strictly-older clause holds at the concrete returned row `m1`. -/
theorem getConversationMessages_spec_witness :
    strLt "2024-01-01T00:00:01Z" "2024-01-01T00:00:03Z" = true :=
  (getConversationMessages_spec dbMsgs "c1" 50
    (some "2024-01-01T00:00:03Z")).2.1 "2024-01-01T00:00:03Z" rfl (by decide)
    ⟨"m1", "c1", "u1", "alice", "one", "2024-01-01T00:00:01Z"⟩ (by decide)

/-- C7 counterexample: the query string is passed into the `LIKE` pattern
unescaped, so `LIKE` metacharacters keep their wildcard meaning. Searching
for `"_"` returns the user named `"ab"`, whose username does not contain
`"_"` as a (case-insensitive) substring. -/
theorem searchUsers_wildcard_counterexample :
    (searchUsers dbSearch "_" "me").map (fun u => u.username) = ["ab"] ∧
    ciSubstr "_" "ab" = false := by
  decide

/-- C7 (amended): `searchUsers(q, X)` returns at most 20 users, never the
user `X`, each matching the SQLite pattern `LIKE '%q%'` — which coincides
with case-insensitive substring containment of `q` whenever `q` contains no
`%` or `_` wildcard — and annotates each returned user with the complete
deduplicated lists of their follower and followee ids (given that follow-edge
ids survive the comma join/split, as the generated UUID ids do). -/
theorem searchUsers_spec (db : DB) (q x : String)
    (hids : ∀ f ∈ db.follows, goodId f.follower_id ∧ goodId f.following_id) :
    (searchUsers db q x).length ≤ 20 ∧
    (∀ u ∈ searchUsers db q x, u.id ≠ x) ∧
    (∀ u ∈ searchUsers db q x, likeContains q u.username = true) ∧
    (noWildcards q → ∀ u ∈ searchUsers db q x, ciSubstr q u.username = true) ∧
    (∀ u ∈ searchUsers db q x,
      u.followers.Nodup ∧
      (∀ y, y ∈ u.followers ↔
        ∃ f ∈ db.follows, f.following_id = u.id ∧ f.follower_id = y) ∧
      u.following.Nodup ∧
      (∀ y, y ∈ u.following ↔
        ∃ f ∈ db.follows, f.follower_id = u.id ∧ f.following_id = y)) := by
  have hdecomp : ∀ u ∈ searchUsers db q x,
      ∃ u0, u0 ∈ db.users.filter
          (fun u0 => likeContains q u0.username && u0.id != x) ∧
        u = ⟨u0.id, u0.username, u0.email, concatSplit (followerIdsOf db u0.id),
          concatSplit (followingIdsOf db u0.id)⟩ := by
    intro u hu
    rcases List.mem_map.mp hu with ⟨u0, hu0, rfl⟩
    exact ⟨u0, List.mem_of_mem_take hu0, rfl⟩
  have hfollowers_eq : ∀ uid : String, concatSplit (followerIdsOf db uid) =
      followerIdsOf db uid := by
    intro uid
    refine concatSplit_eq (fun y hy => ?_)
    rcases List.mem_map.mp (List.mem_dedup.mp hy) with ⟨f, hf, rfl⟩
    exact (hids f (List.mem_filter.mp hf).1).1
  have hfollowing_eq : ∀ uid : String, concatSplit (followingIdsOf db uid) =
      followingIdsOf db uid := by
    intro uid
    refine concatSplit_eq (fun y hy => ?_)
    rcases List.mem_map.mp (List.mem_dedup.mp hy) with ⟨f, hf, rfl⟩
    exact (hids f (List.mem_filter.mp hf).1).2
  refine ⟨?_, ?_, ?_, ?_, ?_⟩
  · show (((db.users.filter
      (fun u0 => likeContains q u0.username && u0.id != x)).take 20).map
        (fun u => (⟨u.id, u.username, u.email, concatSplit (followerIdsOf db u.id),
          concatSplit (followingIdsOf db u.id)⟩ : SearchUser))).length ≤ 20
    rw [List.length_map, List.length_take]
    exact min_le_left _ _
  · intro u hu
    rcases hdecomp u hu with ⟨u0, hu0, rfl⟩
    have := (List.mem_filter.mp hu0).2
    rw [Bool.and_eq_true] at this
    simpa using this.2
  · intro u hu
    rcases hdecomp u hu with ⟨u0, hu0, rfl⟩
    have := (List.mem_filter.mp hu0).2
    rw [Bool.and_eq_true] at this
    exact this.1
  · intro hw u hu
    rcases hdecomp u hu with ⟨u0, hu0, rfl⟩
    have := (List.mem_filter.mp hu0).2
    rw [Bool.and_eq_true] at this
    exact likeContains_sound hw this.1
  · intro u hu
    rcases hdecomp u hu with ⟨u0, hu0, rfl⟩
    refine ⟨?_, ?_, ?_, ?_⟩
    · rw [show (⟨u0.id, u0.username, u0.email, concatSplit (followerIdsOf db u0.id),
        concatSplit (followingIdsOf db u0.id)⟩ : SearchUser).followers =
          concatSplit (followerIdsOf db u0.id) from rfl, hfollowers_eq]
      exact List.nodup_dedup _
    · intro y
      rw [show (⟨u0.id, u0.username, u0.email, concatSplit (followerIdsOf db u0.id),
        concatSplit (followingIdsOf db u0.id)⟩ : SearchUser).followers =
          concatSplit (followerIdsOf db u0.id) from rfl, hfollowers_eq]
      unfold followerIdsOf
      rw [List.mem_dedup]
      constructor
      · intro hy
        rcases List.mem_map.mp hy with ⟨f, hf, rfl⟩
        have hmem := List.mem_filter.mp hf
        exact ⟨f, hmem.1, by simpa using hmem.2, rfl⟩
      · rintro ⟨f, hf, hfoll, rfl⟩
        exact List.mem_map_of_mem _ (List.mem_filter.mpr ⟨hf, by simpa using hfoll⟩)
    · rw [show (⟨u0.id, u0.username, u0.email, concatSplit (followerIdsOf db u0.id),
        concatSplit (followingIdsOf db u0.id)⟩ : SearchUser).following =
          concatSplit (followingIdsOf db u0.id) from rfl, hfollowing_eq]
      exact List.nodup_dedup _
    · intro y
      rw [show (⟨u0.id, u0.username, u0.email, concatSplit (followerIdsOf db u0.id),
        concatSplit (followingIdsOf db u0.id)⟩ : SearchUser).following =
          concatSplit (followingIdsOf db u0.id) from rfl, hfollowing_eq]
      unfold followingIdsOf
      rw [List.mem_dedup]
      constructor
      · intro hy
        rcases List.mem_map.mp hy with ⟨f, hf, rfl⟩
        have hmem := List.mem_filter.mp hf
        exact ⟨f, hmem.1, by simpa using hmem.2, rfl⟩
      · rintro ⟨f, hf, hfoll, rfl⟩
        exact List.mem_map_of_mem _ (List.mem_filter.mpr ⟨hf, by simpa using hfoll⟩)

/-- C7 witness: on the concrete store the hypotheses hold, the result is
capped, and the wildcard-free query `"A"` yields substring containment for
the returned username `"ab"`. -/
theorem searchUsers_spec_witness :
    (searchUsers dbSearch "A" "me").length ≤ 20 ∧ ciSubstr "A" "ab" = true :=
  ⟨(searchUsers_spec dbSearch "A" "me" (by decide)).1,
    (searchUsers_spec dbSearch "A" "me" (by decide)).2.2.2.1 (by decide)
      ⟨"u1", "ab", "e1@x.com", ["me", "ux"], []⟩ (by decide)⟩

/-- C9 counterexample: `getUserByEmail` runs `SELECT *` and hands the full
row to its caller, so its read result carries the stored password: on two
stores identical except for one stored password, the results differ, and the
result literally contains the password value. -/
theorem getUserByEmail_password_leak :
    dbPwB = setPasswords dbPwA (fun _ => "secret2") ∧
    getUserByEmail dbPwA "e@x.com" ≠ getUserByEmail dbPwB "e@x.com" ∧
    (getUserByEmail dbPwA "e@x.com").map (fun u => u.password) = some "secret1" := by
  refine ⟨by decide, by decide, by decide⟩

/-- C9 (amended): every embedded read that returns user data is independent
of the stored password credentials — its result is unchanged under an
arbitrary rewrite of every stored password — except the two credential point
lookups `getUserByEmail` and `getUserByUsername`, which return the full
stored row, password included (the API layer's login depends on this). -/
theorem reads_password_independent (db : DB) (g : User → String)
    (uid q x pid cid : String) (limit : Nat) (before : Option String) :
    getUserById (setPasswords db g) uid = getUserById db uid ∧
    searchUsers (setPasswords db g) q x = searchUsers db q x ∧
    getPostComments (setPasswords db g) pid = getPostComments db pid ∧
    getFeedPosts (setPasswords db g) uid = getFeedPosts db uid ∧
    getConversationParticipants (setPasswords db g) cid =
      getConversationParticipants db cid ∧
    getConversationMessages (setPasswords db g) cid limit before =
      getConversationMessages db cid limit before :=
  ⟨getUserById_setPasswords db g uid, searchUsers_setPasswords db g q x,
    getPostComments_setPasswords db g pid, getFeedPosts_setPasswords db g uid,
    getConversationParticipants_setPasswords db g cid,
    getConversationMessages_setPasswords db g cid limit before⟩

/-- Provenance of one feed/explore row: a member of the author join comes
from a stored post paired with its author's `users` row. -/
theorem mem_joinAuthor {db : DB} {l : List Post} {pu : Post × User}
    (h : pu ∈ joinAuthor db l) :
    pu.1 ∈ l ∧ userById db pu.1.user_id = some pu.2 := by
  rcases List.mem_filterMap.mp h with ⟨p, hp, hsome⟩
  rcases Option.map_eq_some'.mp hsome with ⟨u, hu, hpu⟩
  cases hpu
  exact ⟨hp, hu⟩

/-- C3: the feed returns at most 50 posts, each authored by the caller or a
followee, newest first, enriched with the author's username, the complete
deduplicated liker-id list and the full comment list; explore never contains
a post by the caller or a followee; and on the concrete scenario — `uA`
follows `uB`, `uB` posts "hello" — the post is `uA`'s entire feed and `uA`'s
explore result is empty for every randomized order. -/
theorem feed_explore_spec (db : DB) (uid : String)
    (hlikes : ∀ l ∈ db.likes, goodId l.user_id) :
    (getFeedPosts db uid).length ≤ 50 ∧
    (∀ e ∈ getFeedPosts db uid, e.userId = uid ∨ e.userId ∈ followeeIds db uid) ∧
    (getFeedPosts db uid).Pairwise (fun a b => strLe b.createdAt a.createdAt = true) ∧
    (∀ e ∈ getFeedPosts db uid, ∃ p u, p ∈ db.posts ∧
      userById db p.user_id = some u ∧
      e.id = p.id ∧ e.userId = p.user_id ∧ e.username = u.username ∧
      e.content = p.content ∧ e.createdAt = p.created_at ∧
      e.likes.Nodup ∧
      (∀ y, y ∈ e.likes ↔ ∃ l ∈ db.likes, l.post_id = p.id ∧ l.user_id = y) ∧
      e.comments = getPostComments db p.id) ∧
    (∀ shuffle, (∀ l, (shuffle l).Perm l) →
      ∀ e ∈ getExplorePosts db uid shuffle,
        e.userId ≠ uid ∧ e.userId ∉ followeeIds db uid) ∧
    ((getFeedPosts dbScenario "uA").map (fun e => e.id) = ["p1"] ∧
      ∀ shuffle, (∀ l, (shuffle l).Perm l) →
        getExplorePosts dbScenario "uA" shuffle = []) := by
  have hdecomp : ∀ e ∈ getFeedPosts db uid,
      ∃ pu, pu ∈ (sortByKeyDesc (fun pu : Post × User => pu.1.created_at)
          (joinAuthor db (feedBase db uid))).take 50 ∧ e = enrichPost db pu := by
    intro e he
    rcases List.mem_map.mp he with ⟨pu, hpu, rfl⟩
    exact ⟨pu, hpu, rfl⟩
  have hprov : ∀ pu, pu ∈ (sortByKeyDesc (fun pu : Post × User => pu.1.created_at)
      (joinAuthor db (feedBase db uid))).take 50 →
      pu.1 ∈ feedBase db uid ∧ userById db pu.1.user_id = some pu.2 :=
    fun pu hpu => mem_joinAuthor
      ((sortByKeyDesc_perm _ _).mem_iff.mp (List.mem_of_mem_take hpu))
  refine ⟨?_, ?_, ?_, ?_, ?_, ?_, ?_⟩
  · show (((sortByKeyDesc (fun pu : Post × User => pu.1.created_at)
      (joinAuthor db (feedBase db uid))).take 50).map (enrichPost db)).length ≤ 50
    rw [List.length_map, List.length_take]
    exact min_le_left _ _
  · intro e he
    rcases hdecomp e he with ⟨pu, hpu, rfl⟩
    have hbase := (hprov pu hpu).1
    have hpred := (List.mem_filter.mp hbase).2
    rw [Bool.or_eq_true] at hpred
    rcases hpred with h | h
    · exact Or.inr (by simpa using h)
    · exact Or.inl (by simpa using h)
  · rw [show getFeedPosts db uid =
      ((sortByKeyDesc (fun pu : Post × User => pu.1.created_at)
        (joinAuthor db (feedBase db uid))).take 50).map (enrichPost db) from rfl]
    rw [List.pairwise_map]
    exact List.Pairwise.sublist (List.take_sublist _ _) (sortByKeyDesc_pairwise _ _)
  · intro e he
    rcases hdecomp e he with ⟨pu, hpu, rfl⟩
    have hbase := (hprov pu hpu).1
    have hauthor := (hprov pu hpu).2
    have hlikes_eq : concatSplit (likerIdsOf db pu.1.id) = likerIdsOf db pu.1.id := by
      refine concatSplit_eq (fun y hy => ?_)
      rcases List.mem_map.mp (List.mem_dedup.mp hy) with ⟨l, hl, rfl⟩
      exact hlikes l (List.mem_filter.mp hl).1
    refine ⟨pu.1, pu.2, (List.mem_filter.mp hbase).1, hauthor, rfl, rfl, rfl, rfl, rfl,
      ?_, ?_, rfl⟩
    · rw [show (enrichPost db pu).likes = concatSplit (likerIdsOf db pu.1.id) from rfl,
        hlikes_eq]
      exact List.nodup_dedup _
    · intro y
      rw [show (enrichPost db pu).likes = concatSplit (likerIdsOf db pu.1.id) from rfl,
        hlikes_eq]
      unfold likerIdsOf
      rw [List.mem_dedup]
      constructor
      · intro hy
        rcases List.mem_map.mp hy with ⟨l, hl, rfl⟩
        have hmem := List.mem_filter.mp hl
        exact ⟨l, hmem.1, by simpa using hmem.2, rfl⟩
      · rintro ⟨l, hl, hpid, rfl⟩
        exact List.mem_map_of_mem _ (List.mem_filter.mpr ⟨hl, by simpa using hpid⟩)
  · intro shuffle hsh e he
    rcases List.mem_map.mp he with ⟨pu, hpu, rfl⟩
    have hj : pu ∈ joinAuthor db (exploreBase db uid) :=
      (hsh _).mem_iff.mp (List.mem_of_mem_take hpu)
    have hbase := (mem_joinAuthor hj).1
    have hpred := (List.mem_filter.mp hbase).2
    rw [Bool.and_eq_true] at hpred
    constructor
    · simpa using hpred.1
    · have := hpred.2
      simpa using this
  · decide
  · intro shuffle hsh
    have hempty : joinAuthor dbScenario (exploreBase dbScenario "uA") = [] := by decide
    show ((shuffle (joinAuthor dbScenario (exploreBase dbScenario "uA"))).take 50).map
      (enrichPost dbScenario) = []
    rw [hempty, (hsh []).eq_nil]
    rfl

/-- C3 witness: on the concrete scenario store the like-id hypothesis holds,
the feed is capped, and the identity reordering of explore is empty. -/
theorem feed_explore_spec_witness :
    (getFeedPosts dbScenario "uA").length ≤ 50 ∧
    getExplorePosts dbScenario "uA" (fun l => l) = [] :=
  ⟨(feed_explore_spec dbScenario "uA" (by decide)).1,
    (feed_explore_spec dbScenario "uA" (by decide)).2.2.2.2.2.2
      (fun l => l) (fun l => List.Perm.refl l)⟩

/-! ### Direct-conversation helper lemmas -/

theorem hasParticipant_iff (db : DB) (cid u : String) :
    hasParticipant db cid u = true ↔
      ∃ p ∈ db.participants.filter (fun p => p.conversation_id == cid),
        p.user_id = u := by
  unfold hasParticipant
  rw [List.any_eq_true]
  constructor
  · rintro ⟨p, hp, hpred⟩
    rw [Bool.and_eq_true] at hpred
    exact ⟨p, List.mem_filter.mpr ⟨hp, hpred.1⟩, by simpa using hpred.2⟩
  · rintro ⟨p, hp, hu⟩
    have hm := List.mem_filter.mp hp
    exact ⟨p, hm.1, by simp [hm.2, hu]⟩

/-- A conversation with exactly two participant rows, among them one for `A`
and one for `B` with `A ≠ B`, has participant set exactly `{A, B}`. -/
theorem participant_set_exactly (db : DB) (cid A B : String) (hAB : A ≠ B)
    (hA : hasParticipant db cid A = true) (hB : hasParticipant db cid B = true)
    (hcount : participantCount db cid = 2) :
    ∀ u, hasParticipant db cid u = true ↔ (u = A ∨ u = B) := by
  have hlen : (db.participants.filter (fun p => p.conversation_id == cid)).length = 2 :=
    hcount
  rcases (hasParticipant_iff db cid A).mp hA with ⟨pa, hpa, hua⟩
  rcases (hasParticipant_iff db cid B).mp hB with ⟨pb, hpb, hub⟩
  have hne : pa ≠ pb := fun h => hAB (by rw [← hua, ← hub, h])
  have hpair : ∃ x y, db.participants.filter (fun p => p.conversation_id == cid) =
      [x, y] := by
    cases hfl : db.participants.filter (fun p => p.conversation_id == cid) with
    | nil => rw [hfl] at hlen; simp at hlen
    | cons x xs =>
      cases xs with
      | nil => rw [hfl] at hlen; simp at hlen
      | cons y ys =>
        cases ys with
        | nil => exact ⟨x, y, rfl⟩
        | cons z zs => rw [hfl] at hlen; simp at hlen
  rcases hpair with ⟨x, y, hxy⟩
  rw [hxy] at hpa hpb
  have hpa2 : pa = x ∨ pa = y := by simpa using hpa
  have hpb2 : pb = x ∨ pb = y := by simpa using hpb
  intro u
  rw [hasParticipant_iff db cid u, hxy]
  constructor
  · rintro ⟨p, hp, rfl⟩
    have hp2 : p = x ∨ p = y := by simpa using hp
    rcases hpa2 with ha | ha <;> rcases hpb2 with hb | hb
    · exact absurd (ha.trans hb.symm) hne
    · rcases hp2 with rfl | rfl
      · exact Or.inl (by rw [← hua, ha])
      · exact Or.inr (by rw [← hub, hb])
    · rcases hp2 with rfl | rfl
      · exact Or.inr (by rw [← hub, hb])
      · exact Or.inl (by rw [← hua, ha])
    · exact absurd (ha.trans hb.symm) hne
  · rintro (rfl | rfl)
    · exact ⟨pa, hxy ▸ hpa, hua⟩
    · exact ⟨pb, hxy ▸ hpb, hub⟩

/-- Appending participant rows of other conversations does not change a
conversation's membership tests. -/
theorem hasParticipant_ext (db db' : DB) (ext : List Participant) (cid u : String)
    (hp : db'.participants = db.participants ++ ext)
    (hext : ∀ p ∈ ext, p.conversation_id ≠ cid) :
    hasParticipant db' cid u = hasParticipant db cid u := by
  unfold hasParticipant
  rw [hp, List.any_append]
  have hfalse : ext.any (fun p => p.conversation_id == cid && p.user_id == u) = false := by
    rw [List.any_eq_false]
    intro p hpm
    simp [hext p hpm]
  rw [hfalse, Bool.or_false]

/-- Appending participant rows of other conversations does not change a
conversation's participant count. -/
theorem participantCount_ext (db db' : DB) (ext : List Participant) (cid : String)
    (hp : db'.participants = db.participants ++ ext)
    (hext : ∀ p ∈ ext, p.conversation_id ≠ cid) :
    participantCount db' cid = participantCount db cid := by
  unfold participantCount
  rw [hp, List.filter_append]
  have hnil : ext.filter (fun p => p.conversation_id == cid) = [] := by
    rw [List.filter_eq_nil_iff]
    intro p hpm
    simp [hext p hpm]
  rw [hnil, List.append_nil]

/-- Appending participant rows of other conversations does not change the
dedup query's verdict on an existing conversation row. -/
theorem matchesDirectBetween_ext (db db' : DB) (ext : List Participant)
    (c : Conversation) (u1 u2 : String)
    (hp : db'.participants = db.participants ++ ext)
    (hext : ∀ p ∈ ext, p.conversation_id ≠ c.id) :
    matchesDirectBetween db' c u1 u2 = matchesDirectBetween db c u1 u2 := by
  unfold matchesDirectBetween
  rw [hasParticipant_ext db db' ext c.id u1 hp hext,
    hasParticipant_ext db db' ext c.id u2 hp hext,
    participantCount_ext db db' ext c.id hp hext]

/-- C1: for distinct users `A ≠ B` (with UUID-shaped ids in play: conversation
ids nonempty, the generated id fresh), `getOrCreateDirectConversation`
returns an existing `direct` conversation whose participant set is exactly
`{A, B}` (count exactly 2, both present) unchanged with `created = false`
when one exists; otherwise it creates exactly one conversation row plus the
two participant rows and returns the new id with `created = true`; and an
immediately following second call returns the same conversation id with
`created = false`, changing nothing. -/
theorem getOrCreateDirectConversation_spec (db : DB)
    (A B newId now newId2 now2 : String)
    (hAB : A ≠ B)
    (hconvids : ∀ c ∈ db.conversations, c.id ≠ "")
    (hfresh1 : newId ∉ db.conversations.map (fun c => c.id))
    (hfresh2 : ∀ p ∈ db.participants, p.conversation_id ≠ newId)
    (hfresh3 : newId ≠ "") :
    ((∃ c ∈ db.conversations, matchesDirectBetween db c A B = true) →
      (getOrCreateDirectConversation db A B newId now).db = db ∧
      (getOrCreateDirectConversation db A B newId now).created = false ∧
      ∃ c ∈ db.conversations,
        c.id = (getOrCreateDirectConversation db A B newId now).id ∧
        c.type = "direct" ∧ participantCount db c.id = 2 ∧
        ∀ u, hasParticipant db c.id u = true ↔ (u = A ∨ u = B)) ∧
    ((∀ c ∈ db.conversations, matchesDirectBetween db c A B = false) →
      (getOrCreateDirectConversation db A B newId now).created = true ∧
      (getOrCreateDirectConversation db A B newId now).id = newId ∧
      (getOrCreateDirectConversation db A B newId now).db =
        { db with
          conversations := db.conversations ++ [⟨newId, "direct", none, now, none⟩],
          participants := db.participants ++ [⟨newId, A⟩, ⟨newId, B⟩] }) ∧
    ((getOrCreateDirectConversation
        (getOrCreateDirectConversation db A B newId now).db A B newId2 now2).id =
      (getOrCreateDirectConversation db A B newId now).id ∧
      (getOrCreateDirectConversation
        (getOrCreateDirectConversation db A B newId now).db A B newId2 now2).created =
        false ∧
      (getOrCreateDirectConversation
        (getOrCreateDirectConversation db A B newId now).db A B newId2 now2).db =
        (getOrCreateDirectConversation db A B newId now).db) := by
  cases hfind : db.conversations.find? (fun c => matchesDirectBetween db c A B) with
  | some c0 =>
    have hc0mem : c0 ∈ db.conversations := List.mem_of_find?_eq_some hfind
    have hc0pred0 := List.find?_some hfind
    have hc0pred : matchesDirectBetween db c0 A B = true := hc0pred0
    have hc0id : c0.id ≠ "" := hconvids c0 hc0mem
    have hfd : findDirectConversationBetween db A B = some c0.id := by
      unfold findDirectConversationBetween
      rw [hfind]
      simp [hc0id]
    have hr : getOrCreateDirectConversation db A B newId now = ⟨db, c0.id, false⟩ := by
      unfold getOrCreateDirectConversation
      rw [hfd]
    have hr2 : getOrCreateDirectConversation db A B newId2 now2 = ⟨db, c0.id, false⟩ := by
      unfold getOrCreateDirectConversation
      rw [hfd]
    have hdbproj : (getOrCreateDirectConversation db A B newId now).db = db := by
      rw [hr]
    have hparts : c0.type = "direct" ∧ hasParticipant db c0.id A = true ∧
        hasParticipant db c0.id B = true ∧ participantCount db c0.id = 2 := by
      unfold matchesDirectBetween at hc0pred
      simp only [Bool.and_eq_true, beq_iff_eq] at hc0pred
      exact ⟨hc0pred.1.1.1, hc0pred.1.1.2, hc0pred.1.2, hc0pred.2⟩
    refine ⟨?_, ?_, ?_⟩
    · intro _
      rw [hr]
      exact ⟨rfl, rfl, c0, hc0mem, rfl, hparts.1, hparts.2.2.2,
        participant_set_exactly db c0.id A B hAB hparts.2.1 hparts.2.2.1
          hparts.2.2.2⟩
    · intro hnone
      exact absurd hc0pred (by simp [hnone c0 hc0mem])
    · rw [hdbproj, hr2, hr]
      exact ⟨rfl, rfl, rfl⟩
  | none =>
    have hnone : ∀ c ∈ db.conversations, matchesDirectBetween db c A B = false := by
      intro c hc
      have := List.find?_eq_none.mp hfind c hc
      simpa using this
    have hfd : findDirectConversationBetween db A B = none := by
      unfold findDirectConversationBetween
      rw [hfind]
      rfl
    have hany1 : db.participants.any
        (fun p => p.conversation_id == newId && p.user_id == A) = false := by
      rw [List.any_eq_false]
      intro p hp
      simp [hfresh2 p hp]
    have hany2 : (db.participants ++ [(⟨newId, A⟩ : Participant)]).any
        (fun p => p.conversation_id == newId && p.user_id == B) = false := by
      rw [List.any_eq_false]
      intro p hp
      rcases List.mem_append.mp hp with h | h
      · simp [hfresh2 p h]
      · have hpa : p = ⟨newId, A⟩ := by simpa using h
        subst hpa
        simp [hAB]
    have eA : addParticipant (createConversation db newId "direct" none now) newId A =
        { db with
          conversations := db.conversations ++ [⟨newId, "direct", none, now, none⟩],
          participants := db.participants ++ [⟨newId, A⟩] } := by
      unfold addParticipant
      rw [if_neg (show ¬((createConversation db newId "direct" none
          now).participants.any
            (fun p => p.conversation_id == newId && p.user_id == A) = true) from by
        rw [show (createConversation db newId "direct" none now).participants =
          db.participants from rfl, hany1]
        simp)]
      rfl
    have eB : addParticipant
        { db with
          conversations := db.conversations ++ [⟨newId, "direct", none, now, none⟩],
          participants := db.participants ++ [⟨newId, A⟩] } newId B =
        { db with
          conversations := db.conversations ++ [⟨newId, "direct", none, now, none⟩],
          participants := db.participants ++ [⟨newId, A⟩, ⟨newId, B⟩] } := by
      unfold addParticipant
      rw [if_neg (show ¬((({ db with
          conversations := db.conversations ++ [⟨newId, "direct", none, now, none⟩],
          participants := db.participants ++ [⟨newId, A⟩] } : DB)).participants.any
            (fun p => p.conversation_id == newId && p.user_id == B) = true) from by
        rw [show ({ db with
          conversations := db.conversations ++ [⟨newId, "direct", none, now, none⟩],
          participants := db.participants ++ [⟨newId, A⟩] } : DB).participants =
            db.participants ++ [⟨newId, A⟩] from rfl, hany2]
        simp)]
      simp [List.append_assoc]
    have hr : getOrCreateDirectConversation db A B newId now =
        ⟨{ db with
            conversations := db.conversations ++ [⟨newId, "direct", none, now, none⟩],
            participants := db.participants ++ [⟨newId, A⟩, ⟨newId, B⟩] },
          newId, true⟩ := by
      have step : getOrCreateDirectConversation db A B newId now =
          ⟨addParticipant (addParticipant
            (createConversation db newId "direct" none now) newId A) newId B,
            newId, true⟩ := by
        unfold getOrCreateDirectConversation
        rw [hfd]
      rw [step, eA, eB]
    have hdbproj : (getOrCreateDirectConversation db A B newId now).db =
        { db with
          conversations := db.conversations ++ [⟨newId, "direct", none, now, none⟩],
          participants := db.participants ++ [⟨newId, A⟩, ⟨newId, B⟩] } := by
      rw [hr]
    have hext : ∀ p ∈ [(⟨newId, A⟩ : Participant), ⟨newId, B⟩],
        ∀ c ∈ db.conversations, p.conversation_id ≠ c.id := by
      intro p hp c hc
      have hpid : p.conversation_id = newId := by
        rcases (by simpa using hp : p = (⟨newId, A⟩ : Participant) ∨
          p = (⟨newId, B⟩ : Participant)) with rfl | rfl <;> rfl
      rw [hpid]
      intro heq
      exact hfresh1 (heq ▸ List.mem_map_of_mem (fun c => c.id) hc)
    set db3 : DB :=
      { db with
        conversations := db.conversations ++ [⟨newId, "direct", none, now, none⟩],
        participants := db.participants ++ [⟨newId, A⟩, ⟨newId, B⟩] } with hdb3
    have hfind3old : db.conversations.find?
        (fun c => matchesDirectBetween db3 c A B) = none := by
      rw [List.find?_eq_none]
      intro c hc
      rw [matchesDirectBetween_ext db db3 [⟨newId, A⟩, ⟨newId, B⟩] c A B rfl
        (fun p hp => hext p hp c hc)]
      simp [hnone c hc]
    have hA3 : hasParticipant db3 newId A = true := by
      unfold hasParticipant
      rw [show db3.participants = db.participants ++ [⟨newId, A⟩, ⟨newId, B⟩] from rfl,
        List.any_append]
      simp
    have hB3 : hasParticipant db3 newId B = true := by
      unfold hasParticipant
      rw [show db3.participants = db.participants ++ [⟨newId, A⟩, ⟨newId, B⟩] from rfl,
        List.any_append]
      simp
    have hcount3 : participantCount db3 newId = 2 := by
      unfold participantCount
      rw [show db3.participants = db.participants ++ [⟨newId, A⟩, ⟨newId, B⟩] from rfl,
        List.filter_append]
      have hnil : db.participants.filter (fun p => p.conversation_id == newId) = [] := by
        rw [List.filter_eq_nil_iff]
        intro p hp
        simp [hfresh2 p hp]
      rw [hnil]
      simp
    have hnewmatch : matchesDirectBetween db3
        (⟨newId, "direct", none, now, none⟩ : Conversation) A B = true := by
      unfold matchesDirectBetween
      rw [show (⟨newId, "direct", none, now, none⟩ : Conversation).id = newId from rfl]
      simp [hA3, hB3, hcount3]
    have hfind3 : db3.conversations.find? (fun c => matchesDirectBetween db3 c A B) =
        some ⟨newId, "direct", none, now, none⟩ := by
      rw [show db3.conversations =
        db.conversations ++ [⟨newId, "direct", none, now, none⟩] from rfl,
        List.find?_append, hfind3old]
      simp [List.find?_cons, hnewmatch]
    have hfd3 : findDirectConversationBetween db3 A B = some newId := by
      unfold findDirectConversationBetween
      rw [hfind3]
      simp [hfresh3]
    have hr2 : getOrCreateDirectConversation db3 A B newId2 now2 =
        ⟨db3, newId, false⟩ := by
      unfold getOrCreateDirectConversation
      rw [hfd3]
    refine ⟨?_, ?_, ?_⟩
    · rintro ⟨c, hc, hpred⟩
      exact absurd hpred (by simp [hnone c hc])
    · intro _
      rw [hr]
      exact ⟨rfl, rfl, rfl⟩
    · rw [hdbproj]
      rw [hr2, hr]
      exact ⟨rfl, rfl, rfl⟩

/-- C1 witness: on the empty store the not-found branch fires — the call
creates the conversation and reports `created = true`. -/
theorem getOrCreateDirectConversation_spec_witness :
    (getOrCreateDirectConversation emptyDB "ua" "ub" "cN" "t1").created = true :=
  ((getOrCreateDirectConversation_spec emptyDB "ua" "ub" "cN" "t1" "cM" "t2"
    (by decide) (by decide) (by decide) (by decide) (by decide)).2.1
    (by decide)).1

/-- `find?` only depends on the predicate's values on the list. -/
theorem findq_congr {α : Type} {p q : α → Bool} : ∀ {l : List α},
    (∀ a ∈ l, p a = q a) → l.find? p = l.find? q
  | [], _ => rfl
  | a :: t, h => by
    rw [List.find?_cons, List.find?_cons, h a (List.mem_cons_self a t)]
    cases hq : q a with
    | true => rfl
    | false => exact findq_congr (fun x hx => h x (List.mem_cons_of_mem a hx))

/-- C10 counterexample: with both arguments equal, the two self-joins of the
dedup query land on the same participant row, so `findDirectConversationBetween
(A, A)` matches any 2-participant direct conversation containing `A`. On the
store `dbPair`, which holds the direct conversation `c1` between `ua` and
`ub`, the self-pair call `getOrCreateDirectConversation(ua, ua)` finds `c1`
and returns it with `created = false`, modifying nothing — the claim's
"never finds an existing conversation and always returns created=true" is
false. -/
theorem getOrCreateDirectConversation_self_counterexample :
    (getOrCreateDirectConversation dbPair "ua" "ua" "cN" "t9").created = false ∧
    (getOrCreateDirectConversation dbPair "ua" "ua" "cN" "t9").id = "c1" ∧
    (getOrCreateDirectConversation dbPair "ua" "ua" "cN" "t9").db = dbPair := by
  refine ⟨by decide, by decide, by decide⟩

/-- C10 (amended): when the dedup query finds nothing for the pair `(A, A)` —
i.e. `A` participates in no 2-participant direct conversation — the call
creates a conversation whose two `addParticipant` inserts collapse into the
single row `(newId, A)` under the primary key, so the new conversation has
participant count 1; the dedup query still finds nothing afterwards, so an
immediately repeated call creates yet another conversation (`created = true`
both times). However, when `A` does participate in some 2-participant direct
conversation — e.g. an existing direct conversation with any other user —
the query matches it and the call returns it with `created = false` (see the
counterexample). -/
theorem getOrCreateDirectConversation_self_spec (db : DB)
    (A newId now newId2 now2 : String)
    (hfresh1 : newId ∉ db.conversations.map (fun c => c.id))
    (hfresh2 : ∀ p ∈ db.participants, p.conversation_id ≠ newId)
    (hnone : findDirectConversationBetween db A A = none) :
    (getOrCreateDirectConversation db A A newId now).created = true ∧
    (getOrCreateDirectConversation db A A newId now).id = newId ∧
    (getOrCreateDirectConversation db A A newId now).db.participants =
      db.participants ++ [⟨newId, A⟩] ∧
    participantCount (getOrCreateDirectConversation db A A newId now).db newId = 1 ∧
    findDirectConversationBetween
      (getOrCreateDirectConversation db A A newId now).db A A = none ∧
    (getOrCreateDirectConversation
      (getOrCreateDirectConversation db A A newId now).db A A newId2 now2).created =
      true := by
  have hany1 : db.participants.any
      (fun p => p.conversation_id == newId && p.user_id == A) = false := by
    rw [List.any_eq_false]
    intro p hp
    simp [hfresh2 p hp]
  have eA : addParticipant (createConversation db newId "direct" none now) newId A =
      { db with
        conversations := db.conversations ++ [⟨newId, "direct", none, now, none⟩],
        participants := db.participants ++ [⟨newId, A⟩] } := by
    unfold addParticipant
    rw [if_neg (show ¬((createConversation db newId "direct" none
        now).participants.any
          (fun p => p.conversation_id == newId && p.user_id == A) = true) from by
      rw [show (createConversation db newId "direct" none now).participants =
        db.participants from rfl, hany1]
      simp)]
    rfl
  have eB : addParticipant
      { db with
        conversations := db.conversations ++ [⟨newId, "direct", none, now, none⟩],
        participants := db.participants ++ [⟨newId, A⟩] } newId A =
      { db with
        conversations := db.conversations ++ [⟨newId, "direct", none, now, none⟩],
        participants := db.participants ++ [⟨newId, A⟩] } := by
    unfold addParticipant
    rw [if_pos]
    show ((db.participants ++ [(⟨newId, A⟩ : Participant)]).any
      (fun p => p.conversation_id == newId && p.user_id == A)) = true
    rw [List.any_append]
    simp
  have hr : getOrCreateDirectConversation db A A newId now =
      ⟨{ db with
          conversations := db.conversations ++ [⟨newId, "direct", none, now, none⟩],
          participants := db.participants ++ [⟨newId, A⟩] },
        newId, true⟩ := by
    have step : getOrCreateDirectConversation db A A newId now =
        ⟨addParticipant (addParticipant
          (createConversation db newId "direct" none now) newId A) newId A,
          newId, true⟩ := by
      unfold getOrCreateDirectConversation
      rw [hnone]
    rw [step, eA, eB]
  set db3 : DB :=
    { db with
      conversations := db.conversations ++ [⟨newId, "direct", none, now, none⟩],
      participants := db.participants ++ [⟨newId, A⟩] } with hdb3
  have hext : ∀ p ∈ [(⟨newId, A⟩ : Participant)],
      ∀ c ∈ db.conversations, p.conversation_id ≠ c.id := by
    intro p hp c hc
    have hpid : p.conversation_id = newId := by
      have : p = (⟨newId, A⟩ : Participant) := by simpa using hp
      rw [this]
    rw [hpid]
    intro heq
    exact hfresh1 (heq ▸ List.mem_map_of_mem (fun c => c.id) hc)
  have hcount3 : participantCount db3 newId = 1 := by
    unfold participantCount
    rw [show db3.participants = db.participants ++ [⟨newId, A⟩] from rfl,
      List.filter_append]
    have hnil : db.participants.filter (fun p => p.conversation_id == newId) = [] := by
      rw [List.filter_eq_nil_iff]
      intro p hp
      simp [hfresh2 p hp]
    rw [hnil]
    simp
  have hfind3 : findDirectConversationBetween db3 A A = none := by
    unfold findDirectConversationBetween
    cases hfindold : db.conversations.find? (fun c => matchesDirectBetween db c A A) with
    | some c0 =>
      -- the old first match (necessarily with empty id, else hnone fails) still
      -- matches first in db3
      have hc0mem : c0 ∈ db.conversations := List.mem_of_find?_eq_some hfindold
      have hc0pred0 := List.find?_some hfindold
      have hc0pred : matchesDirectBetween db c0 A A = true := hc0pred0
      have hc0id : c0.id = "" := by
        by_contra hne
        have : findDirectConversationBetween db A A = some c0.id := by
          unfold findDirectConversationBetween
          rw [hfindold]
          simp [hne]
        rw [this] at hnone
        exact Option.noConfusion hnone
      have hpred3 : matchesDirectBetween db3 c0 A A = true := by
        rw [matchesDirectBetween_ext db db3 [⟨newId, A⟩] c0 A A rfl
          (fun p hp => hext p hp c0 hc0mem)]
        exact hc0pred
      have hfindnew : db3.conversations.find?
          (fun c => matchesDirectBetween db3 c A A) = some c0 := by
        rw [show db3.conversations =
          db.conversations ++ [⟨newId, "direct", none, now, none⟩] from rfl,
          List.find?_append]
        have : db.conversations.find? (fun c => matchesDirectBetween db3 c A A) =
            some c0 := by
          have hcongr : ∀ c ∈ db.conversations,
              matchesDirectBetween db3 c A A = matchesDirectBetween db c A A :=
            fun c hc => matchesDirectBetween_ext db db3 [⟨newId, A⟩] c A A rfl
              (fun p hp => hext p hp c hc)
          calc db.conversations.find? (fun c => matchesDirectBetween db3 c A A)
              = db.conversations.find? (fun c => matchesDirectBetween db c A A) :=
                findq_congr hcongr
            _ = some c0 := hfindold
        rw [this]
        rfl
      rw [hfindnew]
      simp [hc0id]
    | none =>
      have hnew_nomatch : matchesDirectBetween db3
          (⟨newId, "direct", none, now, none⟩ : Conversation) A A = false := by
        unfold matchesDirectBetween
        rw [show (⟨newId, "direct", none, now, none⟩ : Conversation).id = newId
          from rfl, hcount3]
        simp
      have hfindnew : db3.conversations.find?
          (fun c => matchesDirectBetween db3 c A A) = none := by
        rw [show db3.conversations =
          db.conversations ++ [⟨newId, "direct", none, now, none⟩] from rfl,
          List.find?_append]
        have hold3 : db.conversations.find? (fun c => matchesDirectBetween db3 c A A) =
            none := by
          rw [List.find?_eq_none]
          intro c hc
          rw [matchesDirectBetween_ext db db3 [⟨newId, A⟩] c A A rfl
            (fun p hp => hext p hp c hc)]
          have := List.find?_eq_none.mp hfindold c hc
          simpa using this
        rw [hold3]
        simp [List.find?_cons, hnew_nomatch]
      rw [hfindnew]
      rfl
  have hdbproj : (getOrCreateDirectConversation db A A newId now).db = db3 := by
    rw [hr]
  refine ⟨by rw [hr], by rw [hr], by rw [hr], ?_, ?_, ?_⟩
  · rw [hdbproj]
    exact hcount3
  · rw [hdbproj]
    exact hfind3
  · rw [hdbproj]
    have hr2 : getOrCreateDirectConversation db3 A A newId2 now2 =
        ⟨addParticipant (addParticipant
          (createConversation db3 newId2 "direct" none now2) newId2 A) newId2 A,
          newId2, true⟩ := by
      unfold getOrCreateDirectConversation
      rw [hfind3]
    rw [hr2]

/-- C10 witness: on the empty store the self-pair call takes the creation
path, inserting a single collapsed participant row. -/
theorem getOrCreateDirectConversation_self_spec_witness :
    (getOrCreateDirectConversation emptyDB "ua" "ua" "cN" "t1").db.participants =
      [⟨"cN", "ua"⟩] :=
  (getOrCreateDirectConversation_self_spec emptyDB "ua" "cN" "t1" "cM" "t2"
    (by decide) (by decide) (by decide)).2.2.1

end SMT
